import Mathlib

/-!
Verification of the traversal & search engine of the local-file-manager
repository (src/local-file-manager).  The filesystem is modelled as an
immutable tree of entries; the search, duplicate-grouping and
tree-rendering functions are shallow embeddings of the Python sources:

* `src/utils/search.py`      — search_by_name, search_by_content,
                               search_by_attributes, find_recent_files,
                               find_duplicate_files
* `src/operations/search.py` — the tool-layer variants (search_in_directory,
                               scan_for_recent_files, check_file)
* `src/utils/file_utils.py`  — get_file_details, get_file_type
* `src/formatters/tree_formatter.py` — format_directory_tree

Modelling conventions:
* timestamps are `Int` seconds (Python `datetime.fromtimestamp` /
  `timedelta(days=d)` become the identity / `d * 86400`); sorting by the
  ISO-8601 `isoformat()` string is order-isomorphic to sorting by the
  timestamp, so the embeddings sort by the integer timestamp directly;
* file bytes are `List Nat`; `read_text(errors='replace')` is modelled on
  the ASCII/invalid-single-byte fragment of UTF-8 (a byte < 0x80 decodes
  to itself, any other byte is an invalid sequence and decodes to U+FFFD);
  within this fragment a byte string is valid text iff all bytes are < 0x80;
* the modelled tree is fully accessible: the per-entry
  `except (PermissionError, OSError)` handlers of the traversals are
  unreachable on it (get_file_details' failure branches are modelled
  separately, over `PathView`, for the claims about them);
* a symlink entry records whether its target is a regular file;
  `is_file()` follows the link (true for a symlink to a regular file)
  while its `Stat` is the target's stat; symlinks to directories and
  dangling links are outside the model, and file reads through a symlink
  are not modelled (no claim depends on them);
* glob patterns cover the `*`, `?` and literal-character fragment of
  `fnmatch` (character classes are not exercised by the claims), and
  `fnmatch.fnmatch` is modelled case-sensitively (POSIX `normcase` is the
  identity);
* Python's stable sorts (`sorted`/`list.sort` with a key) are embedded as
  stable insertion sorts, which produce the same list for any total
  preorder on keys.
-/

namespace LFM

/-- File types as classified by `get_file_type` in `utils/file_utils.py`. -/
inductive FileType where
  | file
  | directory
  | symlink
  | unknown
deriving Repr, DecidableEq

/-- Stat information of an entry (`st_size`, `st_ctime`, `st_mtime`). -/
structure Stat where
  size : Nat
  ctime : Int
  mtime : Int
deriving Repr, DecidableEq

/-- A filesystem entry: the tree a traversal walks.  Directories carry their
children in `iterdir()` order; files carry their raw bytes. -/
inductive FSEntry where
  | file (name : String) (st : Stat) (bytes : List Nat)
  | dir (name : String) (st : Stat) (children : List FSEntry)
  | symlink (name : String) (st : Stat) (targetIsFile : Bool)
deriving Repr

/-- Base name of an entry (`path.name`). -/
def FSEntry.name : FSEntry → String
  | .file n .. => n
  | .dir n .. => n
  | .symlink n .. => n

/-- Stat of an entry (`path.stat()`; always succeeds on the modelled tree). -/
def FSEntry.stat : FSEntry → Stat
  | .file _ st _ => st
  | .dir _ st _ => st
  | .symlink _ st _ => st

/-- Python `path.is_file()`: true for a regular file AND for a symlink
whose target is a regular file (pathlib follows symlinks). -/
def FSEntry.isFile : FSEntry → Bool
  | .file .. => true
  | .symlink _ _ tf => tf
  | .dir .. => false

/-- Python `path.is_dir()`.  Symlinks whose target is a directory are NOT
modelled (on them `is_dir()` would follow the link and the traversals
would descend into the target); a modelled symlink's target is a regular
file or a non-file non-directory object, so `is_dir()` is false. -/
def FSEntry.isDir : FSEntry → Bool
  | .dir .. => true
  | _ => false

/-- The `get_file_type` classification of `utils/file_utils.py`
(symlink first, then directory, then file). -/
def get_file_type (e : FSEntry) : FileType :=
  match e with
  | .symlink .. => .symlink
  | .dir .. => .directory
  | .file .. => .file

/-- Lower-casing of a string, character by character (Python `str.lower`
restricted to the characters `Char.toLower` handles). -/
def lowerStr (s : String) : String :=
  ⟨s.data.map Char.toLower⟩

/-- Whether a name starts with a dot (`name.startswith('.')`). -/
def startsWithDot (s : String) : Bool :=
  match s.data with
  | '.' :: _ => true
  | _ => false

/-- Index of the last `.` in a character list, if any (`str.rfind('.')`). -/
def rfindDot (cs : List Char) : Option Nat :=
  ((List.range cs.length).filter (fun i => cs.getD i ' ' = '.')).getLast?

/-- Python `PurePath.suffix`: the part of the name from its last dot,
empty when the dot is the first or last character or absent. -/
def pathSuffix (name : String) : String :=
  let cs := name.data
  match rfindDot cs with
  | some i => if 0 < i ∧ i < cs.length - 1 then ⟨cs.drop i⟩ else ""
  | none => ""

/-- Glob matching worker.  Every step shortens `pattern.length + s.length`
by at least one, so any fuel above that bound gives the standard
backtracking glob semantics; the fuel only makes the recursion structural
(hence kernel-computable). -/
def globMatchAux : Nat → List Char → List Char → Bool
  | 0, _, _ => false
  | _ + 1, [], s => s.isEmpty
  | fuel + 1, '*' :: ps, [] => globMatchAux fuel ps []
  | fuel + 1, '*' :: ps, c :: cs =>
    globMatchAux fuel ps (c :: cs) || globMatchAux fuel ('*' :: ps) cs
  | _ + 1, '?' :: _, [] => false
  | fuel + 1, '?' :: ps, _ :: cs => globMatchAux fuel ps cs
  | _ + 1, _ :: _, [] => false
  | fuel + 1, p :: ps, c :: cs => p == c && globMatchAux fuel ps cs

/-- Glob matching on the `*` / `?` / literal fragment of `fnmatch`
(full-name match, as produced by `fnmatch.translate` + `re.match`). -/
def globMatch (p s : List Char) : Bool :=
  globMatchAux (p.length + s.length + 1) p s

/-- Glob matching on strings. -/
def globMatchStr (pat s : String) : Bool :=
  globMatch pat.data s.data

/-- The details dictionary built by `get_file_details` in
`utils/file_utils.py` on the success path (the modelled tree is fully
accessible, so neither the outer `except Exception` nor the inner
`except PermissionError` fires here; those branches are modelled
separately below for the claims about them).  The `accessed`,
`permissions` and symlink `target` fields are not consumed by any
modelled operation and are omitted. -/
structure FileDetails where
  name : String
  path : List String
  ftype : FileType
  size : Option Nat := none
  created : Int := 0
  modified : Int := 0
  is_hidden : Bool := false
  extension : Option String := none
  contains_files : Option Bool := none
  contains_dirs : Option Bool := none
  item_count : Option Nat := none
  match_context : Option (List Char) := none
deriving Repr, DecidableEq

/-- Embedding of `get_file_details` (success path) for an entry reached at
path `p` (the list of names from the search root down to the entry). -/
def get_file_details (p : List String) (e : FSEntry) : FileDetails :=
  { name := e.name
    path := p
    ftype := get_file_type e
    size := if get_file_type e = .file then some e.stat.size else none
    created := e.stat.ctime
    modified := e.stat.mtime
    is_hidden := startsWithDot e.name
    extension :=
      match e with
      | .file n .. => if pathSuffix n ≠ "" then some (lowerStr (pathSuffix n)) else none
      | _ => none
    contains_files :=
      match e with
      | .dir _ _ cs => some (cs.any FSEntry.isFile)
      | _ => none
    contains_dirs :=
      match e with
      | .dir _ _ cs => some (cs.any FSEntry.isDir)
      | _ => none
    item_count :=
      match e with
      | .dir _ _ cs => some cs.length
      | _ => none }

/-- Last component of a details path (`Path(r['path']).name`). -/
def pathName (p : List String) : String :=
  p.getLastD ""

/-! ## search_by_name (`utils/search.py`) -/

/-- Parameters of `search_by_name`. -/
structure NameQuery where
  pattern : String
  case_sensitive : Bool := false
  max_depth : Option Nat := none
  max_results : Nat := 100
deriving Repr

/-- The name matcher of `search_by_name`: pattern and name are both
lower-cased when the search is case-insensitive. -/
def match_name (q : NameQuery) (name : String) : Bool :=
  if q.case_sensitive then globMatchStr q.pattern name
  else globMatchStr (lowerStr q.pattern) (lowerStr name)

mutual

/-- The inner `search_directory(current_dir, current_depth)` of
`search_by_name`: depth guard, result-cap guard, then the loop over
`current_dir.iterdir()`. -/
def search_directory_name (q : NameQuery) (p : List String) (depth : Nat)
    (children : List FSEntry) (acc : List FileDetails) : List FileDetails :=
  if (match q.max_depth with | some d => decide (d < depth) | none => false) then acc
  else if q.max_results ≤ acc.length then acc
  else search_name_loop q p depth children acc
termination_by (sizeOf children, 1)

/-- The `for item in current_dir.iterdir()` loop of `search_by_name`:
append the details of a matching item (returning at once if the cap is
then reached), and recurse into directories. -/
def search_name_loop (q : NameQuery) (p : List String) (depth : Nat) :
    List FSEntry → List FileDetails → List FileDetails
  | [], acc => acc
  | item :: rest, acc =>
    if match_name q item.name then
      let acc2 := acc ++ [get_file_details (p ++ [item.name]) item]
      if q.max_results ≤ acc2.length then acc2
      else
        match item with
        | .dir n _ cs =>
          search_name_loop q p depth rest (search_directory_name q (p ++ [n]) (depth + 1) cs acc2)
        | _ => search_name_loop q p depth rest acc2
    else
      match item with
      | .dir n _ cs =>
        search_name_loop q p depth rest (search_directory_name q (p ++ [n]) (depth + 1) cs acc)
      | _ => search_name_loop q p depth rest acc
termination_by items _ => (sizeOf items, 0)

end

/-- Embedding of `search_by_name` in `utils/search.py`: validates the root
and runs `search_directory(start_dir)` (depth 0, empty accumulator). -/
def search_by_name (q : NameQuery) (root : FSEntry) : Except String (List FileDetails) :=
  match root with
  | .dir n _ cs => .ok (search_directory_name q [n] 0 cs [])
  | _ => .error "Start directory does not exist or is not a directory"

/-! ## Stable sorting

Python's `sorted(..., key=k, reverse=...)` is a stable sort; for any total
preorder on keys every stable sort returns the same list, so the embedding
uses a stable insertion sort parameterised by a boolean "may stay before"
relation (`le a b` = `a` may appear before `b`). -/

/-- Insert `x` before the first element it must strictly precede, keeping it
after every element `y` with `le x y` false reversed… precisely: `x` goes
before the first `y` with `le x y`; stability holds because `x` (earlier in
the input) is placed before equal elements. -/
def insertStable (le : α → α → Bool) (x : α) : List α → List α
  | [] => [x]
  | y :: ys => if le x y then x :: y :: ys else y :: insertStable le x ys

/-- Stable insertion sort by `le`. -/
def sortStable (le : α → α → Bool) : List α → List α
  | [] => []
  | x :: xs => insertStable le x (sortStable le xs)

/-! ## search_by_attributes and find_recent_files (`utils/search.py`) -/

/-- Parameters of `search_by_attributes`. -/
structure Criteria where
  file_type : Option FileType := none
  min_size : Option Nat := none
  max_size : Option Nat := none
  created_after : Option Int := none
  created_before : Option Int := none
  modified_after : Option Int := none
  modified_before : Option Int := none
  extensions : Option (List String) := none
  max_depth : Option Nat := none
  max_results : Nat := 100
deriving Repr

/-- Python `ext.lower() if ext.startswith('.') else f'.{ext.lower()}'`. -/
def normExt (e : String) : String :=
  if startsWithDot e then lowerStr e else "." ++ lowerStr e

/-- The `norm_extensions` computation: `None` and the empty list are falsy
in Python, so both impose no constraint. -/
def normExtensions (c : Criteria) : Option (List String) :=
  match c.extensions with
  | some es => if es.isEmpty then none else some (es.map normExt)
  | none => none

/-- Embedding of `matches_criteria` in `search_by_attributes`
(`utils/search.py`).  `path.stat()` succeeds on the modelled tree, so the
`except (PermissionError, OSError): return False` branch is unreachable
here. -/
def matches_criteria (c : Criteria) (e : FSEntry) : Bool :=
  let path_type := get_file_type e
  let st := e.stat
  if (match c.file_type with | some ft => path_type != ft | none => false) then false
  else if path_type == .file &&
      (match c.min_size with | some m => decide (st.size < m) | none => false) then false
  else if path_type == .file &&
      (match c.max_size with | some m => decide (m < st.size) | none => false) then false
  else if (match c.created_after with | some d => decide (st.ctime < d) | none => false) then false
  else if (match c.created_before with | some d => decide (d < st.ctime) | none => false) then false
  else if (match c.modified_after with | some d => decide (st.mtime < d) | none => false) then false
  else if (match c.modified_before with | some d => decide (d < st.mtime) | none => false) then false
  else
    let extBad : Bool :=
      match normExtensions c with
      | some es => path_type == .file && !(es.contains (lowerStr (pathSuffix e.name)))
      | none => false
    if extBad then false
    else true

mutual

/-- The inner `search_directory` of `search_by_attributes`: same traversal
shape as `search_by_name` (the source duplicates it). -/
def search_directory_attr (c : Criteria) (p : List String) (depth : Nat)
    (children : List FSEntry) (acc : List FileDetails) : List FileDetails :=
  if (match c.max_depth with | some d => decide (d < depth) | none => false) then acc
  else if c.max_results ≤ acc.length then acc
  else search_attr_loop c p depth children acc
termination_by (sizeOf children, 1)

/-- The `for item in current_dir.iterdir()` loop of `search_by_attributes`. -/
def search_attr_loop (c : Criteria) (p : List String) (depth : Nat) :
    List FSEntry → List FileDetails → List FileDetails
  | [], acc => acc
  | item :: rest, acc =>
    if matches_criteria c item then
      let acc2 := acc ++ [get_file_details (p ++ [item.name]) item]
      if c.max_results ≤ acc2.length then acc2
      else
        match item with
        | .dir n _ cs =>
          search_attr_loop c p depth rest (search_directory_attr c (p ++ [n]) (depth + 1) cs acc2)
        | _ => search_attr_loop c p depth rest acc2
    else
      match item with
      | .dir n _ cs =>
        search_attr_loop c p depth rest (search_directory_attr c (p ++ [n]) (depth + 1) cs acc)
      | _ => search_attr_loop c p depth rest acc
termination_by items _ => (sizeOf items, 0)

end

/-- Embedding of `search_by_attributes` in `utils/search.py`. -/
def search_by_attributes (c : Criteria) (root : FSEntry) : Except String (List FileDetails) :=
  match root with
  | .dir n _ cs => .ok (search_directory_attr c [n] 0 cs [])
  | _ => .error "Start directory does not exist or is not a directory"

/-- Embedding of `find_recent_files` in `utils/search.py`:
`modified_after = now - timedelta(days=days)`, an attribute search with
only that bound and `max_results * 2`, a glob filter on the result names
(`fnmatch.fnmatch(Path(r['path']).name, file_pattern)`), a stable sort by
modification time descending, and truncation to `max_results`. -/
def find_recent_files (now : Int) (root : FSEntry) (days : Nat)
    (file_pattern : String := "*") (max_results : Nat := 100) :
    Except String (List FileDetails) := do
  let modified_after := now - (days : Int) * 86400
  let results ← search_by_attributes
    { modified_after := some modified_after, max_results := max_results * 2 } root
  let filtered := results.filter (fun r => globMatchStr file_pattern (pathName r.path))
  let sorted := sortStable (fun a b => b.modified ≤ a.modified) filtered
  return sorted.take max_results

/-! ## The tool-layer find_recent_files (`operations/search.py`) -/

mutual

/-- The inner `scan_for_recent_files(current_dir)` of the tool-layer
`find_recent_files` in `operations/search.py`: result-cap guard, then the
loop; only `is_file()` entries matching the pattern with
`mtime >= cutoff_date` are appended; directories are recursed into. -/
def scan_for_recent_files (cutoff : Int) (pat : String) (max_results : Nat)
    (p : List String) (children : List FSEntry) (acc : List FileDetails) :
    List FileDetails :=
  if max_results ≤ acc.length then acc
  else scan_recent_loop cutoff pat max_results p children acc
termination_by (sizeOf children, 1)

/-- The `for item in current_dir.iterdir()` loop of `scan_for_recent_files`. -/
def scan_recent_loop (cutoff : Int) (pat : String) (max_results : Nat) (p : List String) :
    List FSEntry → List FileDetails → List FileDetails
  | [], acc => acc
  | item :: rest, acc =>
    if item.isFile && globMatchStr pat item.name && decide (cutoff ≤ item.stat.mtime) then
      let acc2 := acc ++ [get_file_details (p ++ [item.name]) item]
      if max_results ≤ acc2.length then acc2
      else scan_recent_loop cutoff pat max_results p rest acc2
    else
      match item with
      | .dir n _ cs =>
        scan_recent_loop cutoff pat max_results p rest
          (scan_for_recent_files cutoff pat max_results (p ++ [n]) cs acc)
      | _ => scan_recent_loop cutoff pat max_results p rest acc
termination_by items _ => (sizeOf items, 0)

end

/-- Embedding of the tool-layer `find_recent_files` in
`operations/search.py`: `cutoff_date = now - timedelta(days=days)`, the
recursive scan, and a stable sort by modification time descending. -/
def op_find_recent_files (now : Int) (root : FSEntry) (days : Nat)
    (file_pattern : String := "*") (max_results : Nat := 100) :
    Except String (List FileDetails) :=
  match root with
  | .dir n _ cs =>
    let cutoff := now - (days : Int) * 86400
    let results := scan_for_recent_files cutoff file_pattern max_results [n] cs []
    .ok (sortStable (fun a b => b.modified ≤ a.modified) results)
  | _ => .error "Directory does not exist"

/-! ## search_by_content (`utils/search.py` and `operations/search.py`) -/

/-- The Unicode replacement character U+FFFD. -/
def replacementChar : Char := Char.ofNat 0xFFFD

/-- Python `read_text(errors='replace')` on the modelled byte fragment:
every byte below 0x80 decodes to itself, every other byte is an invalid
sequence replaced by U+FFFD.  With `errors='replace'` decoding NEVER
raises `UnicodeDecodeError`. -/
def decodeReplace (bs : List Nat) : List Char :=
  bs.map (fun b => if b < 128 then Char.ofNat b else replacementChar)

/-- Whether a byte string is valid text (decodes without error) in the
modelled fragment: all bytes below 0x80. -/
def validTextBytes (bs : List Nat) : Bool :=
  bs.all (· < 128)

/-- Lower-casing of a character list. -/
def lowerL (cs : List Char) : List Char :=
  cs.map Char.toLower

/-- First index at which `needle` occurs in `hay` (Python `str.find`,
returning `none` instead of `-1`; `x in s` is `(findSub x s).isSome`). -/
def findSub (needle : List Char) : List Char → Option Nat
  | [] => if needle.isEmpty then some 0 else none
  | c :: cs =>
    if needle.isPrefixOf (c :: cs) then some 0
    else (findSub needle cs).map (· + 1)

/-- Parameters of `search_by_content` (`max_size` defaults to 10 MiB). -/
structure ContentQuery where
  text : List Char
  file_pattern : String := "*"
  case_sensitive : Bool := false
  max_size : Nat := 10 * 1024 * 1024
  max_results : Nat := 100
deriving Repr

/-- Embedding of `search_file` in `utils/search.py`: skip non-files, skip
files above `max_size`, skip names failing the glob filter, read the text
with `errors='replace'` (total — the `except UnicodeDecodeError` branch is
unreachable), test the (case-folded) substring and attach the context
slice `content[max(0, i-40) : min(len, i+len(text)+40)]` — with NO newline
replacement in this variant.  Python's `in`-test followed by `.find` is
collapsed into one `findSub` match (they agree by definition). -/
def search_file (q : ContentQuery) (p : List String) (e : FSEntry) : Option FileDetails :=
  match e with
  | .file _ st bytes =>
    if q.max_size < st.size then none
    else if ¬ globMatchStr q.file_pattern e.name then none
    else
      let content := decodeReplace bytes
      let idx :=
        if q.case_sensitive then findSub q.text content
        else findSub (lowerL (lowerL q.text)) (lowerL content)
      match idx with
      | some index =>
        let start := index - 40
        let stop := min content.length (index + q.text.length + 40)
        some { get_file_details p e with
               match_context := some ((content.drop start).take (stop - start)) }
      | none => none
  | _ => none

/-- The file-collection walk of `search_by_content` (`collect_files`):
`os.walk` top-down; all non-directory children of a directory are
appended (stopping at the `max_results * 10` batch cap) before descending
into its non-hidden subdirectories in order.  Python's `break` leaves only
the inner file loop, so the walk continues but appends nothing once the
cap is reached — modelled by the cap test before each append. -/
def addFiles (cap : Nat) (p : List String) :
    List FSEntry → List (List String × FSEntry) → List (List String × FSEntry)
  | [], acc => acc
  | f :: rest, acc =>
    if cap ≤ acc.length then acc
    else addFiles cap p rest (acc ++ [(p ++ [f.name], f)])

mutual

/-- One `os.walk` step of `collect_files`: files of the current directory,
then recursion into non-hidden subdirectories (os.walk's `dirs`/`files`
split and the hidden pruning `dirs[:] = [d for d in dirs if not
d.startswith('.')]` are realised by the filter and by skipping inside
`collect_dirs`). -/
def collect_files (cap : Nat) (p : List String) (children : List FSEntry)
    (acc : List (List String × FSEntry)) : List (List String × FSEntry) :=
  let acc2 := addFiles cap p (children.filter (fun c => !c.isDir)) acc
  collect_dirs cap p children acc2
termination_by (sizeOf children, 1)

/-- Descend into the non-hidden subdirectories among `children`, in order. -/
def collect_dirs (cap : Nat) (p : List String) :
    List FSEntry → List (List String × FSEntry) → List (List String × FSEntry)
  | [], acc => acc
  | d :: rest, acc =>
    match d with
    | .dir n _ cs =>
      if startsWithDot n then collect_dirs cap p rest acc
      else collect_dirs cap p rest (collect_files cap (p ++ [n]) cs acc)
    | _ => collect_dirs cap p rest acc
termination_by ds _ => (sizeOf ds, 0)

end

/-- The result-gathering loop of `search_by_content`
(`for result in executor.map(search_file, files_to_check)`), which
preserves input order: append a non-`None` result while below the cap,
stop once the cap is reached. -/
def gather_results (max_results : Nat) :
    List (Option FileDetails) → List FileDetails → List FileDetails
  | [], acc => acc
  | r :: rest, acc =>
    let acc2 :=
      match r with
      | some d => if acc.length < max_results then acc ++ [d] else acc
      | none => acc
    if max_results ≤ acc2.length then acc2
    else gather_results max_results rest acc2

/-- Embedding of `search_by_content` in `utils/search.py`. -/
def search_by_content (q : ContentQuery) (root : FSEntry) : Except String (List FileDetails) :=
  match root with
  | .dir n _ cs =>
    let files := collect_files (q.max_results * 10) [n] cs []
    .ok (gather_results q.max_results (files.map (fun pe => search_file q pe.1 pe.2)) [])
  | _ => .error "Start directory does not exist or is not a directory"

/-- Embedding of `check_file` in the tool-layer `search_by_content`
(`operations/search.py`): same skips, but the context slice is taken from
the ORIGINAL content at the index found in the (case-folded) content and
every newline in it is replaced by a space
(`content[start_idx:end_idx].replace("\n", " ")`). -/
def op_check_file (q : ContentQuery) (p : List String) (e : FSEntry) : Option FileDetails :=
  match e with
  | .file _ st bytes =>
    if q.max_size < st.size then none
    else if ¬ globMatchStr q.file_pattern e.name then none
    else
      let content := decodeReplace bytes
      let search_text := if q.case_sensitive then q.text else lowerL q.text
      let haystack := if q.case_sensitive then content else lowerL content
      match findSub search_text haystack with
      | some index =>
        let start := index - 40
        let stop := min content.length (index + q.text.length + 40)
        let context := ((content.drop start).take (stop - start)).map
          (fun c => if c = '\n' then ' ' else c)
        some { get_file_details p e with match_context := some context }
      | none => none
  | _ => none

mutual

/-- The `os.walk` file enumeration of the tool-layer `search_by_content`
(no hidden-directory pruning, no collection cap): all non-directory
children of a directory, then its subdirectories in order. -/
def op_walk_files (p : List String) (children : List FSEntry) :
    List (List String × FSEntry) :=
  (children.filter (fun c => !c.isDir)).map (fun f => (p ++ [f.name], f)) ++
    op_walk_dirs p children
termination_by (sizeOf children, 1)

/-- Walk into the subdirectories among `children`, in order. -/
def op_walk_dirs (p : List String) : List FSEntry → List (List String × FSEntry)
  | [] => []
  | d :: rest =>
    (match d with
     | .dir n _ cs => op_walk_files (p ++ [n]) cs
     | _ => []) ++ op_walk_dirs p rest
termination_by ds => (sizeOf ds, 0)

end

/-- The per-file loop of the tool-layer `search_by_content`: before each
file the cap is tested (`break`), then `check_file` appends at most one
result. -/
def op_content_loop (q : ContentQuery) :
    List (List String × FSEntry) → List FileDetails → List FileDetails
  | [], acc => acc
  | pe :: rest, acc =>
    if q.max_results ≤ acc.length then acc
    else
      op_content_loop q rest
        (match op_check_file q pe.1 pe.2 with
         | some d => acc ++ [d]
         | none => acc)

/-- Embedding of the tool-layer `search_by_content` (`operations/search.py`). -/
def op_search_by_content (q : ContentQuery) (root : FSEntry) : Except String (List FileDetails) :=
  match root with
  | .dir n _ cs => .ok (op_content_loop q (op_walk_files [n] cs) [])
  | _ => .error "Directory does not exist"

/-! ## find_duplicate_files (`utils/search.py`) -/

/-- A scanned file record: its path, base name and byte size. -/
structure ScanFile where
  path : List String
  name : String
  size : Nat
deriving Repr, DecidableEq

/-- The `(name, size)` grouping key of a scanned file. -/
def ScanFile.key (f : ScanFile) : String × Nat :=
  (f.name, f.size)

mutual

/-- The `scan_directory` of `find_duplicate_files`: every `is_file()` child
is recorded, every `is_dir()` child is descended into — unconditionally,
with no depth cap and no result budget. -/
def scan_directory (p : List String) (children : List FSEntry) : List ScanFile :=
  scan_loop p children
termination_by (sizeOf children, 1)

/-- The `for item in directory.iterdir()` loop of `scan_directory`:
`if item.is_file()` records `(item.name, item.stat().st_size)` (following
symlinks), `elif item.is_dir()` recurses. -/
def scan_loop (p : List String) : List FSEntry → List ScanFile
  | [] => []
  | item :: rest =>
    if item.isFile then
      { path := p ++ [item.name], name := item.name, size := item.stat.size } ::
        scan_loop p rest
    else
      match item with
      | .dir n _ cs => scan_directory (p ++ [n]) cs ++ scan_loop p rest
      | _ => scan_loop p rest
termination_by items => (sizeOf items, 0)

end

/-- Append a path to the group of key `k` in the insertion-ordered
association list (`potential_duplicates[key].append(...)`, creating the
entry on first sight — Python dicts preserve insertion order). -/
def addToGroups (k : String × Nat) (p : List String) :
    List ((String × Nat) × List (List String)) → List ((String × Nat) × List (List String))
  | [] => [(k, [p])]
  | (k', ps) :: rest =>
    if k' = k then (k', ps ++ [p]) :: rest else (k', ps) :: addToGroups k p rest

/-- Build the `(name, size) -> [file_paths]` map over the scanned files, in
scan order. -/
def buildGroups (files : List ScanFile) : List ((String × Nat) × List (List String)) :=
  files.foldl (fun acc f => addToGroups f.key f.path acc) []

/-- A duplicate group of the result format
`{"name", "size", "count", "paths"}`. -/
structure DupGroup where
  name : String
  size : Nat
  count : Nat
  paths : List (List String)
deriving Repr, DecidableEq

/-- Embedding of `find_duplicate_files` in `utils/search.py`: full scan,
grouping, filter to groups with more than one member, stable sort by
count descending, truncation to `max_results` groups. -/
def find_duplicate_files (root : FSEntry) (max_results : Nat := 100) :
    Except String (List DupGroup) :=
  match root with
  | .dir n _ cs =>
    let scanned := scan_directory [n] cs
    let groups := (buildGroups scanned).filter (fun g => 1 < g.2.length)
    let result_groups := groups.map
      (fun g => { name := g.1.1, size := g.1.2, count := g.2.length, paths := g.2 : DupGroup })
    let sorted := sortStable (fun a b => b.count ≤ a.count) result_groups
    .ok (sorted.take max_results)
  | _ => .error "Start directory does not exist or is not a directory"

/-! ## format_directory_tree (`formatters/tree_formatter.py`) -/

/-- Lexicographic order on character lists by code point (Python string
comparison). -/
def charListLe : List Char → List Char → Bool
  | [], _ => true
  | _ :: _, [] => false
  | a :: as, b :: bs =>
    if a.toNat < b.toNat then true
    else if b.toNat < a.toNat then false
    else charListLe as bs

/-- The child sort key of the tree renderer:
`(0 if x.is_file() else 1, x.name.lower())`. -/
def treeSortKey (e : FSEntry) : Nat × List Char :=
  ((if e.isFile then 0 else 1), (lowerStr e.name).data)

/-- Key comparison for the tree sort (tuple order on the key). -/
def treeKeyLe (a b : FSEntry) : Bool :=
  let ka := treeSortKey a
  let kb := treeSortKey b
  if ka.1 < kb.1 then true
  else if kb.1 < ka.1 then false
  else charListLe ka.2 kb.2

/-- The `items.sort(key=lambda x: (0 if x.is_file() else 1, x.name.lower()))`
of `add_directory` (a stable sort). -/
def sortChildren (items : List FSEntry) : List FSEntry :=
  sortStable treeKeyLe items

mutual

/-- The `add_directory(current_path, prefix, depth)` of
`format_directory_tree`: past `max_depth` a single ellipsis line; else the
sorted children truncated to `max_items` with branch glyphs, recursing
into directories, and a trailing "+N more" line when items were hidden.
(The `shown_item_count` counter of the source is never read and is
dropped; permission errors cannot occur on the modelled tree.) -/
def add_directory (max_items max_depth : Nat) (children : List FSEntry)
    (pfx : String) (depth : Nat) : List String :=
  if max_depth < depth then [pfx ++ "└── ..."]
  else
    let items := sortChildren children
    let display_items := items.take max_items
    let hidden_count := items.length - display_items.length
    render_items max_items max_depth pfx depth hidden_count display_items ++
      (if 0 < hidden_count then
        [pfx ++ "└── ... " ++ toString hidden_count ++ " more items"]
      else [])
termination_by (sizeOf children, 1)
decreasing_by
  have hins : ∀ (y : FSEntry) (l : List FSEntry),
      sizeOf (insertStable treeKeyLe y l) = sizeOf (y :: l) := by
    intro y l
    induction l with
    | nil => rfl
    | cons z zs ih2 =>
      by_cases h : treeKeyLe y z
      · simp [insertStable, h]
      · simp only [insertStable, h, Bool.false_eq_true, ite_false,
          List.cons.sizeOf_spec] at ih2 ⊢
        omega
  have h2 : sizeOf (sortChildren children) = sizeOf children := by
    unfold sortChildren
    induction children with
    | nil => rfl
    | cons x xs ih =>
      simp only [sortStable, hins, List.cons.sizeOf_spec, ih]
  have htk : ∀ (n : Nat) (l : List FSEntry), sizeOf (l.take n) ≤ sizeOf l := by
    intro n l
    induction l generalizing n with
    | nil => simp [List.take]
    | cons x xs ih =>
      cases n with
      | zero => simp [List.take]; omega
      | succ m =>
        simp only [List.take, List.cons.sizeOf_spec]
        have := ih m
        omega
  have h1 := htk max_items (sortChildren children)
  rcases Nat.lt_or_ge (sizeOf (List.take max_items (sortChildren children)))
      (sizeOf children) with h | h
  · exact Prod.Lex.left _ _ h
  · have heq : sizeOf (List.take max_items (sortChildren children)) = sizeOf children := by
      omega
    rw [heq]
    exact Prod.Lex.right _ (by omega)

/-- Render the displayed items; an item is `is_last` when it is the final
displayed one and nothing was hidden. -/
def render_items (max_items max_depth : Nat) (pfx : String) (depth : Nat)
    (hidden_count : Nat) : List FSEntry → List String
  | [] => []
  | item :: rest =>
    let is_last := rest.isEmpty && hidden_count == 0
    let curr_pfx := if is_last then pfx ++ "└── " else pfx ++ "├── "
    let next_pfx := if is_last then pfx ++ "    " else pfx ++ "│   "
    match item with
    | .dir n _ cs =>
      (curr_pfx ++ n ++ "/") :: add_directory max_items max_depth cs next_pfx (depth + 1) ++
        render_items max_items max_depth pfx depth hidden_count rest
    | _ =>
      (curr_pfx ++ item.name) :: render_items max_items max_depth pfx depth hidden_count rest
termination_by items => (sizeOf items, 0)

end

/-- Embedding of `format_directory_tree`: root line `name/`, then
`add_directory(path_obj, prefix="", depth=1)`, joined with newlines. -/
def format_directory_tree (root : FSEntry) (max_items : Nat := 15) (max_depth : Nat := 3) :
    String :=
  match root with
  | .dir n _ cs =>
    String.intercalate "\n" ((n ++ "/") :: add_directory max_items max_depth cs "" 1)
  | .file n .. => "Not a directory: " ++ n
  | .symlink n _ _ => "Not a directory: " ++ n

/-! ## get_file_details with failures (`utils/file_utils.py`)

The search embeddings above use `get_file_details` on a fully accessible
tree.  The claims about its error handling need the failure branches, so
they are modelled over a `PathView`: the outcome of the filesystem calls
the function makes on one path. -/

/-- How listing a directory can fail. -/
inductive ListErr where
  | permission
  | osError (msg : String)
deriving Repr, DecidableEq

/-- The filesystem's answers for one path: `stat()` (`none` = raises),
the `get_file_type` classification, and for directories the listing
(child types, or a failure). -/
structure PathView where
  name : String
  pathStr : String
  statResult : Option Stat
  ftype : FileType
  listing : Except ListErr (List FileType) := .ok []
  suffix : String := ""
deriving Repr

/-- The details dictionary with every optional part explicit, as built by
`get_file_details` over a `PathView`. -/
structure DetailsDict where
  name : String
  path : String
  ftype : FileType
  size : Option Nat := none
  created : Option Int := none
  modified : Option Int := none
  is_hidden : Option Bool := none
  extension : Option String := none
  contains_files : Option Bool := none
  contains_dirs : Option Bool := none
  item_count : Option Nat := none
  error : Option String := none
deriving Repr, DecidableEq

/-- Embedding of `get_file_details` in `utils/file_utils.py` with its
failure branches: a `stat()` failure — or any other exception reaching
the outer `except Exception`, such as a non-permission `OSError` while
listing a directory — yields the `{"name", "path", "type": "unknown",
"error"}` dictionary; a `PermissionError` while listing only sets the
`error` entry of the otherwise complete dictionary. -/
def get_file_details_pv (v : PathView) : DetailsDict :=
  match v.statResult with
  | none =>
    { name := v.name, path := v.pathStr, ftype := .unknown, error := some "stat failed" }
  | some st =>
    let base : DetailsDict :=
      { name := v.name
        path := v.pathStr
        ftype := v.ftype
        size := if v.ftype = .file then some st.size else none
        created := some st.ctime
        modified := some st.mtime
        is_hidden := some (startsWithDot v.name)
        extension :=
          if v.ftype = .file ∧ v.suffix ≠ "" then some (lowerStr v.suffix) else none }
    if v.ftype = .directory then
      match v.listing with
      | .ok l =>
        { base with
          contains_files := some (l.any (· = .file))
          contains_dirs := some (l.any (· = .directory))
          item_count := some l.length }
      | .error .permission => { base with error := some "Permission denied" }
      | .error (.osError msg) =>
        { name := v.name, path := v.pathStr, ftype := .unknown, error := some msg }
    else base

/-! ## Concrete fixtures -/

/-- A neutral stat value. -/
def stZ : Stat := ⟨0, 0, 0⟩

/-- Tree with a file `a` and a subdirectory `b` under the root. -/
def treeFileAndDir : FSEntry :=
  .dir "r" stZ [.file "a" stZ [], .dir "b" stZ []]

/-- A tree whose first root child is a non-matching directory holding a
matching file, followed by a matching sibling file. -/
def treeOverflow : FSEntry :=
  .dir "r" stZ [.dir "d" stZ [.file "a.txt" stZ []], .file "b.txt" stZ []]

/-- Bytes of `b"hello\xff"`: not valid text (0xFF is never valid UTF-8). -/
def invalidBytes : List Nat := [104, 101, 108, 108, 111, 255]

/-- A tree holding one file whose bytes are not valid text. -/
def treeInvalidText : FSEntry :=
  .dir "r" stZ [.file "f.txt" ⟨6, 0, 0⟩ invalidBytes]

/-- A tree holding one recently modified DIRECTORY. -/
def treeRecentDir : FSEntry :=
  .dir "r" stZ [.dir "d" ⟨0, 0, 1000000⟩ []]

/-- C9's failing input: a directory whose `stat()` succeeds but whose
listing raises a non-permission `OSError`. -/
def dirListingOsError : PathView :=
  { name := "d", pathStr := "/d", statResult := some stZ, ftype := .directory,
    listing := .error (.osError "boom") }

/-- A path whose `stat()` fails. -/
def statFailView : PathView :=
  { name := "x", pathStr := "/x", statResult := none, ftype := .unknown }

/-- A directory whose listing raises `PermissionError`. -/
def permDeniedView : PathView :=
  { name := "d", pathStr := "/d", statResult := some stZ, ftype := .directory,
    listing := .error .permission }

/-- Extension-only criteria used to exhibit a directory in the results. -/
def extOnlyCriteria : Criteria := { extensions := some [".txt"] }

/-- A root holding one directory with a non-matching "suffix". -/
def treeDirWithExt : FSEntry := .dir "r" stZ [.dir "d.md" stZ []]

/-- Children of an entry (empty for non-directories). -/
def FSEntry.children : FSEntry → List FSEntry
  | .dir _ _ cs => cs
  | _ => []

/-- All descendants of a directory with their depth and path; the children
of the root sit at depth `d` (the search code counts depth from 0 at the
children of the start directory). -/
def entriesFrom (p : List String) (d : Nat) : List FSEntry → List (Nat × List String × FSEntry)
  | [] => []
  | e :: rest =>
    (d, p ++ [e.name], e) ::
      ((match e with
        | .dir n _ cs => entriesFrom (p ++ [n]) (d + 1) cs
        | _ => []) ++ entriesFrom p d rest)
termination_by l => (sizeOf l, 0)

/-- A chain of nested directories with a single matching file at depth `n`:
exhibits that a search without a depth limit descends arbitrarily deep. -/
def chainTree : Nat → FSEntry
  | 0 => .file "x.txt" stZ []
  | n + 1 => .dir "d" stZ [chainTree n]

/-- The path of the deep file of `chainTree n` below the root. -/
def chainPath : Nat → List String
  | 0 => ["x.txt"]
  | n + 1 => "d" :: chainPath n

/-- A tree with a triplicated file key `("x",1)` and a duplicated key
`("a",1)`. -/
def dupTree : FSEntry :=
  .dir "r" stZ
    [.dir "d1" stZ [.file "x" ⟨1, 0, 0⟩ []],
     .dir "d2" stZ [.file "x" ⟨1, 0, 0⟩ []],
     .dir "d3" stZ [.file "x" ⟨1, 0, 0⟩ []],
     .dir "e1" stZ [.file "a" ⟨1, 0, 0⟩ []],
     .dir "e2" stZ [.file "a" ⟨1, 0, 0⟩ []]]

/-- Children of a root holding exactly one duplicate pair. -/
def dupPairChildren : List FSEntry :=
  [.dir "e1" stZ [.file "a" ⟨1, 0, 0⟩ []], .dir "e2" stZ [.file "a" ⟨1, 0, 0⟩ []]]

/-- Bytes of `"ab\ncd hello xy"`: a text containing a newline shortly
before an occurrence of `hello`. -/
def nlBytes : List Nat := [97, 98, 10, 99, 100, 32, 104, 101, 108, 108, 111, 32, 120, 121]

/-- A tree holding one file whose content embeds a newline near a match. -/
def nlTree : FSEntry :=
  .dir "r" stZ [.file "f.txt" ⟨14, 0, 0⟩ nlBytes]

/-- The default-cased content query for `hello`. -/
def nlQuery : ContentQuery := { text := "hello".data }

/-- The details the tool-layer `check_file` returns for the newline file:
context with the newline flattened to a space. -/
def nlMatchDetails : FileDetails :=
  { get_file_details ["r", "f.txt"] (.file "f.txt" ⟨14, 0, 0⟩ nlBytes) with
    match_context := some "ab cd hello xy".data }

/-- The unlimited-depth query used with the chain tree. -/
def chainQuery : NameQuery :=
  { pattern := "*.txt", case_sensitive := true, max_depth := none, max_results := 100 }

/-- A depth-zero-limited name query. -/
def depthZeroQuery : NameQuery :=
  { pattern := "*.txt", case_sensitive := true, max_depth := some 0, max_results := 100 }

/-- Paths recorded for the group of key `k` in an association list (first
matching entry, as Python dict lookup). -/
def groupFor (k : String × Nat) :
    List ((String × Nat) × List (List String)) → List (List String)
  | [] => []
  | (k', ps) :: rest => if k' = k then ps else groupFor k rest

/-! ## General lemmas -/

theorem perm_insertStable (le : α → α → Bool) (x : α) (l : List α) :
    List.Perm (insertStable le x l) (x :: l) := by
  induction l with
  | nil => exact .refl _
  | cons y ys ih =>
    by_cases h : le x y
    · simp only [insertStable, h, ite_true]
      exact .refl _
    · simp only [insertStable, h, Bool.false_eq_true, ite_false]
      exact (ih.cons y).trans (List.Perm.swap x y ys)

theorem perm_sortStable (le : α → α → Bool) (l : List α) :
    List.Perm (sortStable le l) l := by
  induction l with
  | nil => exact .refl _
  | cons x xs ih =>
    exact (perm_insertStable le x (sortStable le xs)).trans (ih.cons x)

theorem mem_sortStable {le : α → α → Bool} {l : List α} {a : α} :
    a ∈ sortStable le l ↔ a ∈ l :=
  (perm_sortStable le l).mem_iff

theorem length_sortStable (le : α → α → Bool) (l : List α) :
    (sortStable le l).length = l.length :=
  (perm_sortStable le l).length_eq

/-- An entry with `isFile` true — a regular file, or a symlink whose
target is one — yields details of type `file` or `symlink` (the
`get_file_type` classification tests `is_symlink()` first), never
`directory`. -/
theorem ftype_get_file_details_of_isFile {e : FSEntry} (h : e.isFile = true)
    (p : List String) :
    (get_file_details p e).ftype = .file ∨ (get_file_details p e).ftype = .symlink := by
  cases e with
  | file n st bs => exact Or.inl rfl
  | dir n st cs => simp [FSEntry.isFile] at h
  | symlink n st tf => exact Or.inr rfl

/-- The recent-files scan of the tool layer only ever appends details of
entries whose `is_file()` test succeeded: their type is `file` or
`symlink`, never `directory`. -/
theorem scan_recent_files_only (cutoff : Int) (pat : String) (maxR : Nat) :
    ∀ (p : List String) (children : List FSEntry) (acc : List FileDetails),
      (∀ r ∈ acc, r.ftype = .file ∨ r.ftype = .symlink) →
      ∀ r ∈ scan_for_recent_files cutoff pat maxR p children acc,
        r.ftype = .file ∨ r.ftype = .symlink := by
  refine scan_for_recent_files.induct cutoff pat maxR
    (fun p children acc =>
      (∀ r ∈ acc, r.ftype = .file ∨ r.ftype = .symlink) →
      ∀ r ∈ scan_for_recent_files cutoff pat maxR p children acc,
        r.ftype = .file ∨ r.ftype = .symlink)
    (fun p items acc =>
      (∀ r ∈ acc, r.ftype = .file ∨ r.ftype = .symlink) →
      ∀ r ∈ scan_recent_loop cutoff pat maxR p items acc,
        r.ftype = .file ∨ r.ftype = .symlink)
    ?_ ?_ ?_ ?_ ?_ ?_ ?_
  · intro p children acc h hacc
    have hEq : scan_for_recent_files cutoff pat maxR p children acc = acc := by
      rw [scan_for_recent_files.eq_def, if_pos h]
    simp only [hEq]
    exact hacc
  · intro p children acc h ih hacc
    have hEq : scan_for_recent_files cutoff pat maxR p children acc =
        scan_recent_loop cutoff pat maxR p children acc := by
      rw [scan_for_recent_files.eq_def, if_neg h]
    simp only [hEq]
    exact ih hacc
  · intro p acc hacc
    have hEq : scan_recent_loop cutoff pat maxR p [] acc = acc :=
      scan_recent_loop.eq_1 cutoff pat maxR p acc
    simp only [hEq]
    exact hacc
  · intro p item rest acc hcond acc2 hcap hacc
    have hcap' : maxR ≤ (acc ++ [get_file_details (p ++ [item.name]) item]).length := hcap
    have hnd : ∀ nm st cs, item = FSEntry.dir nm st cs → False := by
      intro nm st cs h
      subst h
      simp [FSEntry.isFile] at hcond
    have hEq : scan_recent_loop cutoff pat maxR p (item :: rest) acc =
        acc ++ [get_file_details (p ++ [item.name]) item] := by
      rw [scan_recent_loop.eq_3 cutoff pat maxR p acc item rest hnd, if_pos hcond]
      exact if_pos hcap'
    simp only [hEq]
    intro r hr
    rcases List.mem_append.1 hr with hr | hr
    · exact hacc r hr
    · rcases List.mem_singleton.1 hr with rfl
      exact ftype_get_file_details_of_isFile (by simp_all) _
  · intro p item rest acc hcond acc2 hcap ih hacc
    have hcap' : ¬ maxR ≤ (acc ++ [get_file_details (p ++ [item.name]) item]).length := hcap
    have hnd : ∀ nm st cs, item = FSEntry.dir nm st cs → False := by
      intro nm st cs h
      subst h
      simp [FSEntry.isFile] at hcond
    have hEq : scan_recent_loop cutoff pat maxR p (item :: rest) acc =
        scan_recent_loop cutoff pat maxR p rest
          (acc ++ [get_file_details (p ++ [item.name]) item]) := by
      rw [scan_recent_loop.eq_3 cutoff pat maxR p acc item rest hnd, if_pos hcond]
      exact if_neg hcap'
    simp only [hEq]
    refine ih ?_
    intro r hr
    rcases List.mem_append.1 hr with hr | hr
    · exact hacc r hr
    · rcases List.mem_singleton.1 hr with rfl
      exact ftype_get_file_details_of_isFile (by simp_all) _
  · intro p rest acc name st children hcond ih1 ih2 hacc
    have hEq : scan_recent_loop cutoff pat maxR p (FSEntry.dir name st children :: rest) acc =
        scan_recent_loop cutoff pat maxR p rest
          (scan_for_recent_files cutoff pat maxR (p ++ [name]) children acc) := by
      rw [scan_recent_loop.eq_2, if_neg hcond]
    simp only [hEq]
    exact ih2 (ih1 hacc)
  · intro p item rest acc hcond hnotdir ih hacc
    have hEq : scan_recent_loop cutoff pat maxR p (item :: rest) acc =
        scan_recent_loop cutoff pat maxR p rest acc := by
      rw [scan_recent_loop.eq_3 cutoff pat maxR p acc item rest hnotdir, if_neg hcond]
    simp only [hEq]
    exact ih hacc

/-- The gathering loop of `search_by_content` never grows the accumulator
past the cap. -/
theorem gather_results_length_le (m : Nat) :
    ∀ (l : List (Option FileDetails)) (acc : List FileDetails),
      acc.length ≤ m → (gather_results m l acc).length ≤ m := by
  intro l
  induction l with
  | nil => intro acc h; simpa [gather_results] using h
  | cons r rest ih =>
    intro acc h
    simp only [gather_results]
    rcases r with _ | d
    · by_cases hc : m ≤ acc.length
      · simp [hc, h]
      · simp [hc]
        exact ih acc h
    · by_cases hlt : acc.length < m
      · simp only [hlt, ite_true]
        by_cases hc : m ≤ (acc ++ [d]).length
        · simp only [hc, ite_true]
          simpa using hlt
        · simp only [hc, ite_false]
          exact ih _ (by simp; omega)
      · simp only [hlt, ite_false]
        by_cases hc : m ≤ acc.length
        · simp [hc, h]
        · simp [hc]
          exact ih acc h

/-- The tool-layer content loop never grows the accumulator past the cap. -/
theorem op_content_loop_length_le (q : ContentQuery) :
    ∀ (l : List (List String × FSEntry)) (acc : List FileDetails),
      acc.length ≤ q.max_results →
      (op_content_loop q l acc).length ≤ q.max_results := by
  intro l
  induction l with
  | nil => intro acc h; simpa [op_content_loop] using h
  | cons pe rest ih =>
    intro acc h
    simp only [op_content_loop]
    by_cases hc : q.max_results ≤ acc.length
    · simp [hc, h]
    · simp only [hc, ite_false]
      rcases hcf : op_check_file q pe.1 pe.2 with _ | d
      · exact ih acc h
      · exact ih _ (by simp; omega)

/-- The head entry is enumerated. -/
theorem mem_entriesFrom_head (p : List String) (d : Nat) (e : FSEntry) (rest : List FSEntry) :
    (d, p ++ [e.name], e) ∈ entriesFrom p d (e :: rest) := by
  cases e <;> simp [entriesFrom, FSEntry.name]

/-- Entries of a leading subdirectory are enumerated. -/
theorem mem_entriesFrom_sub {t : Nat × List String × FSEntry} (p : List String) (d : Nat)
    (n : String) (st : Stat) (cs : List FSEntry) (rest : List FSEntry)
    (h : t ∈ entriesFrom (p ++ [n]) (d + 1) cs) :
    t ∈ entriesFrom p d (FSEntry.dir n st cs :: rest) := by
  simp only [entriesFrom, List.mem_cons, List.mem_append]
  exact Or.inr (Or.inl h)

/-- Entries of the remaining siblings are enumerated. -/
theorem mem_entriesFrom_rest {t : Nat × List String × FSEntry} (p : List String) (d : Nat)
    (e : FSEntry) (rest : List FSEntry) (h : t ∈ entriesFrom p d rest) :
    t ∈ entriesFrom p d (e :: rest) := by
  cases e <;>
    · simp only [entriesFrom, List.mem_cons, List.mem_append]
      exact Or.inr (Or.inr h)

/-- Entries found by the `search_by_name` traversal come from the
depth-indexed enumeration of the walked subtree, at a depth within the
limit: generalised invariant over the accumulator, proved by the
functional induction of the traversal. -/
theorem search_name_depth_invariant (q : NameQuery) (D : Nat) (hD : q.max_depth = some D) :
    ∀ (p : List String) (depth : Nat) (children : List FSEntry) (acc : List FileDetails),
      ∀ r ∈ search_directory_name q p depth children acc,
        r ∈ acc ∨ ∃ d pe e, (d, pe, e) ∈ entriesFrom p depth children ∧ d ≤ D ∧
          r = get_file_details pe e := by
  refine search_directory_name.induct q
    (fun p depth children acc =>
      ∀ r ∈ search_directory_name q p depth children acc,
        r ∈ acc ∨ ∃ d pe e, (d, pe, e) ∈ entriesFrom p depth children ∧ d ≤ D ∧
          r = get_file_details pe e)
    (fun p depth items acc => depth ≤ D →
      ∀ r ∈ search_name_loop q p depth items acc,
        r ∈ acc ∨ ∃ d pe e, (d, pe, e) ∈ entriesFrom p depth items ∧ d ≤ D ∧
          r = get_file_details pe e)
    ?_ ?_ ?_ ?_ ?_ ?_ ?_ ?_ ?_
  · intro p depth children acc h r hr
    rw [search_directory_name.eq_def, if_pos h] at hr
    exact Or.inl hr
  · intro p depth children acc h h2 r hr
    rw [search_directory_name.eq_def, if_neg h, if_pos h2] at hr
    exact Or.inl hr
  · intro p depth children acc h h2 ih r hr
    rw [search_directory_name.eq_def, if_neg h, if_neg h2] at hr
    have hdep : depth ≤ D := by
      rw [hD] at h
      simp only [decide_eq_true_eq] at h
      omega
    exact ih hdep r hr
  · intro p depth acc hdep r hr
    rw [search_name_loop.eq_1] at hr
    exact Or.inl hr
  · intro p depth item rest acc hm acc2 hcap hdep r hr
    have hcap' : q.max_results ≤ (acc ++ [get_file_details (p ++ [item.name]) item]).length := hcap
    have hEq : search_name_loop q p depth (item :: rest) acc =
        acc ++ [get_file_details (p ++ [item.name]) item] := by
      cases item with
      | dir n st cs =>
        rw [search_name_loop.eq_2, if_pos hm]
        exact if_pos hcap'
      | file n st bs =>
        rw [search_name_loop.eq_3 q p depth acc _ rest (fun _ _ _ h => FSEntry.noConfusion h),
          if_pos hm]
        exact if_pos hcap'
      | symlink n st tf =>
        rw [search_name_loop.eq_3 q p depth acc _ rest (fun _ _ _ h => FSEntry.noConfusion h),
          if_pos hm]
        exact if_pos hcap'
    rw [hEq] at hr
    rcases List.mem_append.1 hr with hr | hr
    · exact Or.inl hr
    · rcases List.mem_singleton.1 hr with rfl
      exact Or.inr ⟨depth, p ++ [item.name], item, mem_entriesFrom_head p depth item rest,
        hdep, rfl⟩
  · intro p depth rest acc name st children hm acc2 hcap ih1 ih1' ih2 hdep r hr
    have hcap' : ¬ q.max_results ≤
        (acc ++ [get_file_details (p ++ [FSEntry.name (.dir name st children)])
          (.dir name st children)]).length := hcap
    have hEq : search_name_loop q p depth (FSEntry.dir name st children :: rest) acc =
        search_name_loop q p depth rest (search_directory_name q (p ++ [name]) (depth + 1)
          children (acc ++ [get_file_details (p ++ [FSEntry.name (.dir name st children)])
            (.dir name st children)])) := by
      rw [search_name_loop.eq_2, if_pos hm]
      exact if_neg hcap'
    rw [hEq] at hr
    rcases ih2 hdep r hr with hr | ⟨d, pe, e, hmem, hd, hre⟩
    · rcases ih1' r hr with hr | ⟨d, pe, e, hmem, hd, hre⟩
      · rcases List.mem_append.1 hr with hr | hr
        · exact Or.inl hr
        · rcases List.mem_singleton.1 hr with rfl
          exact Or.inr ⟨depth, p ++ [FSEntry.name (.dir name st children)],
            .dir name st children, mem_entriesFrom_head p depth _ rest, hdep, rfl⟩
      · exact Or.inr ⟨d, pe, e, mem_entriesFrom_sub p depth name st children rest hmem, hd, hre⟩
    · exact Or.inr ⟨d, pe, e, mem_entriesFrom_rest p depth _ rest hmem, hd, hre⟩
  · intro p depth item rest acc hm acc2 hcap hnd ih hdep r hr
    have hcap' : ¬ q.max_results ≤ (acc ++ [get_file_details (p ++ [item.name]) item]).length :=
      hcap
    have hEq : search_name_loop q p depth (item :: rest) acc =
        search_name_loop q p depth rest (acc ++ [get_file_details (p ++ [item.name]) item]) := by
      rw [search_name_loop.eq_3 q p depth acc item rest hnd, if_pos hm]
      exact if_neg hcap'
    rw [hEq] at hr
    rcases ih hdep r hr with hr | ⟨d, pe, e, hmem, hd, hre⟩
    · rcases List.mem_append.1 hr with hr | hr
      · exact Or.inl hr
      · rcases List.mem_singleton.1 hr with rfl
        exact Or.inr ⟨depth, p ++ [item.name], item, mem_entriesFrom_head p depth item rest,
          hdep, rfl⟩
    · exact Or.inr ⟨d, pe, e, mem_entriesFrom_rest p depth item rest hmem, hd, hre⟩
  · intro p depth rest acc name st children hm ih1 ih2 hdep r hr
    have hEq : search_name_loop q p depth (FSEntry.dir name st children :: rest) acc =
        search_name_loop q p depth rest
          (search_directory_name q (p ++ [name]) (depth + 1) children acc) := by
      rw [search_name_loop.eq_2, if_neg hm]
    rw [hEq] at hr
    rcases ih2 hdep r hr with hr | ⟨d, pe, e, hmem, hd, hre⟩
    · rcases ih1 r hr with hr | ⟨d, pe, e, hmem, hd, hre⟩
      · exact Or.inl hr
      · exact Or.inr ⟨d, pe, e, mem_entriesFrom_sub p depth name st children rest hmem, hd, hre⟩
    · exact Or.inr ⟨d, pe, e, mem_entriesFrom_rest p depth _ rest hmem, hd, hre⟩
  · intro p depth item rest acc hm hnd ih hdep r hr
    have hEq : search_name_loop q p depth (item :: rest) acc =
        search_name_loop q p depth rest acc := by
      rw [search_name_loop.eq_3 q p depth acc item rest hnd, if_neg hm]
    rw [hEq] at hr
    rcases ih hdep r hr with hr | ⟨d, pe, e, hmem, hd, hre⟩
    · exact Or.inl hr
    · exact Or.inr ⟨d, pe, e, mem_entriesFrom_rest p depth item rest hmem, hd, hre⟩

/-- Entries found by the `search_by_attributes` traversal come from the
depth-indexed enumeration of the walked subtree, at a depth within the
limit: generalised invariant over the accumulator, proved by the
functional induction of the traversal. -/
theorem search_attr_depth_invariant (q : Criteria) (D : Nat) (hD : q.max_depth = some D) :
    ∀ (p : List String) (depth : Nat) (children : List FSEntry) (acc : List FileDetails),
      ∀ r ∈ search_directory_attr q p depth children acc,
        r ∈ acc ∨ ∃ d pe e, (d, pe, e) ∈ entriesFrom p depth children ∧ d ≤ D ∧
          r = get_file_details pe e := by
  refine search_directory_attr.induct q
    (fun p depth children acc =>
      ∀ r ∈ search_directory_attr q p depth children acc,
        r ∈ acc ∨ ∃ d pe e, (d, pe, e) ∈ entriesFrom p depth children ∧ d ≤ D ∧
          r = get_file_details pe e)
    (fun p depth items acc => depth ≤ D →
      ∀ r ∈ search_attr_loop q p depth items acc,
        r ∈ acc ∨ ∃ d pe e, (d, pe, e) ∈ entriesFrom p depth items ∧ d ≤ D ∧
          r = get_file_details pe e)
    ?_ ?_ ?_ ?_ ?_ ?_ ?_ ?_ ?_
  · intro p depth children acc h r hr
    rw [search_directory_attr.eq_def, if_pos h] at hr
    exact Or.inl hr
  · intro p depth children acc h h2 r hr
    rw [search_directory_attr.eq_def, if_neg h, if_pos h2] at hr
    exact Or.inl hr
  · intro p depth children acc h h2 ih r hr
    rw [search_directory_attr.eq_def, if_neg h, if_neg h2] at hr
    have hdep : depth ≤ D := by
      rw [hD] at h
      simp only [decide_eq_true_eq] at h
      omega
    exact ih hdep r hr
  · intro p depth acc hdep r hr
    rw [search_attr_loop.eq_1] at hr
    exact Or.inl hr
  · intro p depth item rest acc hm acc2 hcap hdep r hr
    have hcap' : q.max_results ≤ (acc ++ [get_file_details (p ++ [item.name]) item]).length := hcap
    have hEq : search_attr_loop q p depth (item :: rest) acc =
        acc ++ [get_file_details (p ++ [item.name]) item] := by
      cases item with
      | dir n st cs =>
        rw [search_attr_loop.eq_2, if_pos hm]
        exact if_pos hcap'
      | file n st bs =>
        rw [search_attr_loop.eq_3 q p depth acc _ rest (fun _ _ _ h => FSEntry.noConfusion h),
          if_pos hm]
        exact if_pos hcap'
      | symlink n st tf =>
        rw [search_attr_loop.eq_3 q p depth acc _ rest (fun _ _ _ h => FSEntry.noConfusion h),
          if_pos hm]
        exact if_pos hcap'
    rw [hEq] at hr
    rcases List.mem_append.1 hr with hr | hr
    · exact Or.inl hr
    · rcases List.mem_singleton.1 hr with rfl
      exact Or.inr ⟨depth, p ++ [item.name], item, mem_entriesFrom_head p depth item rest,
        hdep, rfl⟩
  · intro p depth rest acc name st children hm acc2 hcap ih1 ih1' ih2 hdep r hr
    have hcap' : ¬ q.max_results ≤
        (acc ++ [get_file_details (p ++ [FSEntry.name (.dir name st children)])
          (.dir name st children)]).length := hcap
    have hEq : search_attr_loop q p depth (FSEntry.dir name st children :: rest) acc =
        search_attr_loop q p depth rest (search_directory_attr q (p ++ [name]) (depth + 1)
          children (acc ++ [get_file_details (p ++ [FSEntry.name (.dir name st children)])
            (.dir name st children)])) := by
      rw [search_attr_loop.eq_2, if_pos hm]
      exact if_neg hcap'
    rw [hEq] at hr
    rcases ih2 hdep r hr with hr | ⟨d, pe, e, hmem, hd, hre⟩
    · rcases ih1' r hr with hr | ⟨d, pe, e, hmem, hd, hre⟩
      · rcases List.mem_append.1 hr with hr | hr
        · exact Or.inl hr
        · rcases List.mem_singleton.1 hr with rfl
          exact Or.inr ⟨depth, p ++ [FSEntry.name (.dir name st children)],
            .dir name st children, mem_entriesFrom_head p depth _ rest, hdep, rfl⟩
      · exact Or.inr ⟨d, pe, e, mem_entriesFrom_sub p depth name st children rest hmem, hd, hre⟩
    · exact Or.inr ⟨d, pe, e, mem_entriesFrom_rest p depth _ rest hmem, hd, hre⟩
  · intro p depth item rest acc hm acc2 hcap hnd ih hdep r hr
    have hcap' : ¬ q.max_results ≤ (acc ++ [get_file_details (p ++ [item.name]) item]).length :=
      hcap
    have hEq : search_attr_loop q p depth (item :: rest) acc =
        search_attr_loop q p depth rest (acc ++ [get_file_details (p ++ [item.name]) item]) := by
      rw [search_attr_loop.eq_3 q p depth acc item rest hnd, if_pos hm]
      exact if_neg hcap'
    rw [hEq] at hr
    rcases ih hdep r hr with hr | ⟨d, pe, e, hmem, hd, hre⟩
    · rcases List.mem_append.1 hr with hr | hr
      · exact Or.inl hr
      · rcases List.mem_singleton.1 hr with rfl
        exact Or.inr ⟨depth, p ++ [item.name], item, mem_entriesFrom_head p depth item rest,
          hdep, rfl⟩
    · exact Or.inr ⟨d, pe, e, mem_entriesFrom_rest p depth item rest hmem, hd, hre⟩
  · intro p depth rest acc name st children hm ih1 ih2 hdep r hr
    have hEq : search_attr_loop q p depth (FSEntry.dir name st children :: rest) acc =
        search_attr_loop q p depth rest
          (search_directory_attr q (p ++ [name]) (depth + 1) children acc) := by
      rw [search_attr_loop.eq_2, if_neg hm]
    rw [hEq] at hr
    rcases ih2 hdep r hr with hr | ⟨d, pe, e, hmem, hd, hre⟩
    · rcases ih1 r hr with hr | ⟨d, pe, e, hmem, hd, hre⟩
      · exact Or.inl hr
      · exact Or.inr ⟨d, pe, e, mem_entriesFrom_sub p depth name st children rest hmem, hd, hre⟩
    · exact Or.inr ⟨d, pe, e, mem_entriesFrom_rest p depth _ rest hmem, hd, hre⟩
  · intro p depth item rest acc hm hnd ih hdep r hr
    have hEq : search_attr_loop q p depth (item :: rest) acc =
        search_attr_loop q p depth rest acc := by
      rw [search_attr_loop.eq_3 q p depth acc item rest hnd, if_neg hm]
    rw [hEq] at hr
    rcases ih hdep r hr with hr | ⟨d, pe, e, hmem, hd, hre⟩
    · exact Or.inl hr
    · exact Or.inr ⟨d, pe, e, mem_entriesFrom_rest p depth item rest hmem, hd, hre⟩

/-- Searching the chain tree with no depth limit returns exactly the one
matching file at the bottom, however deep it lies. -/
theorem chain_search (n : Nat) :
    ∀ (p : List String) (depth : Nat),
      search_directory_name chainQuery p depth [chainTree n] [] =
      [get_file_details (p ++ chainPath n) (.file "x.txt" stZ [])] := by
  induction n with
  | zero =>
    intro p depth
    simp +decide [chainTree, chainPath, chainQuery, search_directory_name,
      search_name_loop, match_name, get_file_details, FSEntry.name, globMatchStr,
      lowerStr, stZ, startsWithDot]
  | succ m ih =>
    intro p depth
    have h1 : chainQuery.max_depth = none := rfl
    have h2 : chainQuery.max_results = 100 := rfl
    have h3 : match_name chainQuery "d" = false := by decide
    simp +decide [chainTree, chainPath, search_directory_name, search_name_loop,
      FSEntry.name, h1, h2, h3, ih, List.append_assoc]

/-- C5: with a depth limit `D`, every result of `search_by_name` and of
`search_by_attributes` is the details of an entry lying at depth ≤ D in
the walked subtree (depth 0 at the children of the root); with no limit
the walk is unbounded — for every `n` the single matching file at depth
`n` of a directory chain is returned. -/
theorem c5_depth_limit :
    (∀ (q : NameQuery) (root : FSEntry) (D : Nat) (res : List FileDetails),
      q.max_depth = some D →
      search_by_name q root = .ok res →
      ∀ r ∈ res, ∃ d pe e, (d, pe, e) ∈ entriesFrom [root.name] 0 root.children ∧
        d ≤ D ∧ r = get_file_details pe e) ∧
    (∀ (c : Criteria) (root : FSEntry) (D : Nat) (res : List FileDetails),
      c.max_depth = some D →
      search_by_attributes c root = .ok res →
      ∀ r ∈ res, ∃ d pe e, (d, pe, e) ∈ entriesFrom [root.name] 0 root.children ∧
        d ≤ D ∧ r = get_file_details pe e) ∧
    (∀ n : Nat,
      search_by_name chainQuery (.dir "root" stZ [chainTree n]) =
      .ok [get_file_details ("root" :: chainPath n) (.file "x.txt" stZ [])]) := by
  refine ⟨?_, ?_, ?_⟩
  · intro q root D res hD h r hr
    cases root with
    | dir n st cs =>
      simp only [search_by_name, Except.ok.injEq] at h
      subst h
      rcases search_name_depth_invariant q D hD [n] 0 cs [] r hr with hr | hx
      · simp at hr
      · simpa [FSEntry.name, FSEntry.children] using hx
    | file n st bs => simp [search_by_name] at h
    | symlink n st tf => simp [search_by_name] at h
  · intro c root D res hD h r hr
    cases root with
    | dir n st cs =>
      simp only [search_by_attributes, Except.ok.injEq] at h
      subst h
      rcases search_attr_depth_invariant c D hD [n] 0 cs [] r hr with hr | hx
      · simp at hr
      · simpa [FSEntry.name, FSEntry.children] using hx
    | file n st bs => simp [search_by_attributes] at h
    | symlink n st tf => simp [search_by_attributes] at h
  · intro n
    simp only [search_by_name, chain_search n ["root"] 0, List.singleton_append,
      Except.ok.injEq]

/-- Witness for C5: the depth-0 bound at a one-file tree and the unbounded
chain at `n = 2`. -/
theorem c5_depth_limit_witness :
    (∃ d pe e, (d, pe, e) ∈ entriesFrom ["r"] 0 [FSEntry.file "a.txt" stZ []] ∧ d ≤ 0 ∧
      get_file_details ["r", "a.txt"] (.file "a.txt" stZ []) = get_file_details pe e) ∧
    search_by_name chainQuery (.dir "root" stZ [chainTree 2]) =
    .ok [get_file_details ("root" :: chainPath 2) (.file "x.txt" stZ [])] := by
  constructor
  · have e : search_by_name depthZeroQuery (.dir "r" stZ [.file "a.txt" stZ []]) =
        .ok [get_file_details ["r", "a.txt"] (.file "a.txt" stZ [])] := by
      simp +decide [search_by_name, depthZeroQuery, search_directory_name,
        search_name_loop, match_name, get_file_details, FSEntry.name, globMatchStr,
        lowerStr, stZ, startsWithDot]
    exact c5_depth_limit.1 depthZeroQuery _ 0 _ rfl e _ (by simp)
  · exact c5_depth_limit.2.2 2

/-! ## Lemmas about duplicate grouping and sorting -/

theorem groupFor_addToGroups (k kI : String × Nat) (p : List String)
    (assoc : List ((String × Nat) × List (List String))) :
    groupFor k (addToGroups kI p assoc) =
      if kI = k then groupFor k assoc ++ [p] else groupFor k assoc := by
  induction assoc with
  | nil =>
    by_cases h : kI = k <;> simp [addToGroups, groupFor, h]
  | cons hd rest ih =>
    obtain ⟨k0, ps0⟩ := hd
    by_cases h1 : k0 = kI
    · subst h1
      by_cases h2 : k0 = k
      · subst h2
        simp [addToGroups, groupFor]
      · simp [addToGroups, groupFor, h2]
    · by_cases h2 : k0 = k
      · subst h2
        have h3 : kI ≠ k0 := fun hh => h1 hh.symm
        simp [addToGroups, groupFor, h1, h3]
      · simp [addToGroups, groupFor, h1, h2, ih]

theorem groupFor_foldl (k : String × Nat) :
    ∀ (l : List ScanFile) (assoc : List ((String × Nat) × List (List String))),
      groupFor k (l.foldl (fun acc f => addToGroups f.key f.path acc) assoc) =
        groupFor k assoc ++ (l.filter (fun f => f.key = k)).map ScanFile.path := by
  intro l
  induction l with
  | nil => intro assoc; simp
  | cons f rest ih =>
    intro assoc
    simp only [List.foldl_cons, ih, groupFor_addToGroups]
    by_cases h : f.key = k
    · simp [List.filter_cons, h, List.append_assoc]
    · simp [List.filter_cons, h]

theorem groupFor_buildGroups (k : String × Nat) (l : List ScanFile) :
    groupFor k (buildGroups l) = (l.filter (fun f => f.key = k)).map ScanFile.path := by
  simpa [buildGroups, groupFor] using groupFor_foldl k l []

theorem mem_keys_addToGroups {k' : String × Nat} (k : String × Nat) (p : List String)
    (assoc : List ((String × Nat) × List (List String))) :
    k' ∈ (addToGroups k p assoc).map Prod.fst ↔ k' ∈ assoc.map Prod.fst ∨ k' = k := by
  induction assoc with
  | nil => simp [addToGroups]
  | cons hd rest ih =>
    obtain ⟨k0, ps0⟩ := hd
    by_cases h : k0 = k <;> simp [addToGroups, h, ih] <;> tauto

theorem keys_nodup_addToGroups (k : String × Nat) (p : List String)
    (assoc : List ((String × Nat) × List (List String)))
    (h : (assoc.map Prod.fst).Nodup) :
    ((addToGroups k p assoc).map Prod.fst).Nodup := by
  induction assoc with
  | nil => simp [addToGroups]
  | cons hd rest ih =>
    obtain ⟨k0, ps0⟩ := hd
    simp only [List.map_cons, List.nodup_cons] at h
    by_cases hk : k0 = k
    · subst hk
      simp only [addToGroups, ite_true, List.map_cons, List.nodup_cons, if_pos rfl]
      exact ⟨h.1, h.2⟩
    · simp only [addToGroups, hk, ite_false, List.map_cons, List.nodup_cons]
      refine ⟨?_, ih h.2⟩
      intro hmem
      rcases (mem_keys_addToGroups k p rest).1 hmem with hmem | hmem
      · exact h.1 hmem
      · exact hk hmem

theorem keys_nodup_buildGroups (l : List ScanFile) :
    ((buildGroups l).map Prod.fst).Nodup := by
  suffices h : ∀ (assoc : List ((String × Nat) × List (List String))),
      (assoc.map Prod.fst).Nodup →
      ((l.foldl (fun acc f => addToGroups f.key f.path acc) assoc).map Prod.fst).Nodup by
    simpa [buildGroups] using h [] (by simp)
  induction l with
  | nil => intro assoc h; simpa using h
  | cons f rest ih =>
    intro assoc h
    simp only [List.foldl_cons]
    exact ih _ (keys_nodup_addToGroups f.key f.path assoc h)

theorem groupFor_eq_of_mem {assoc : List ((String × Nat) × List (List String))}
    (hnd : (assoc.map Prod.fst).Nodup) {k : String × Nat} {ps : List (List String)}
    (h : (k, ps) ∈ assoc) : groupFor k assoc = ps := by
  induction assoc with
  | nil => simp at h
  | cons hd rest ih =>
    obtain ⟨k0, ps0⟩ := hd
    simp only [List.map_cons, List.nodup_cons] at hnd
    rcases List.mem_cons.1 h with h | h
    · obtain ⟨h1, h2⟩ := Prod.mk.injEq .. ▸ h
      subst h1
      subst h2
      simp [groupFor]
    · have hne : k0 ≠ k := by
        intro hh
        subst hh
        exact hnd.1 (List.mem_map.2 ⟨(k0, ps), h, rfl⟩)
      simp only [groupFor, hne, ite_false]
      exact ih hnd.2 h

theorem mem_groupFor_self {assoc : List ((String × Nat) × List (List String))}
    {k : String × Nat} (h : k ∈ assoc.map Prod.fst) : (k, groupFor k assoc) ∈ assoc := by
  induction assoc with
  | nil => simp at h
  | cons hd rest ih =>
    obtain ⟨k0, ps0⟩ := hd
    by_cases hk : k0 = k
    · subst hk
      simp [groupFor]
    · simp only [List.map_cons, List.mem_cons] at h
      rcases h with h | h
      · exact absurd h.symm hk
      · simp only [groupFor, hk, ite_false, List.mem_cons]
        exact Or.inr (ih h)

theorem mem_keys_buildGroups (l : List ScanFile) (k : String × Nat) :
    k ∈ (buildGroups l).map Prod.fst ↔ k ∈ l.map ScanFile.key := by
  suffices h : ∀ (assoc : List ((String × Nat) × List (List String))),
      k ∈ ((l.foldl (fun acc f => addToGroups f.key f.path acc) assoc).map Prod.fst) ↔
        k ∈ assoc.map Prod.fst ∨ k ∈ l.map ScanFile.key by
    simpa [buildGroups] using h []
  induction l with
  | nil => intro assoc; simp
  | cons f rest ih =>
    intro assoc
    simp only [List.foldl_cons, ih, mem_keys_addToGroups, List.map_cons, List.mem_cons]
    tauto

theorem pairwise_insertStable (le : α → α → Bool)
    (htot : ∀ a b, le a b = true ∨ le b a = true)
    (htrans : ∀ a b c, le a b = true → le b c = true → le a c = true)
    {l : List α} (hl : List.Pairwise (fun a b => le a b = true) l) (x : α) :
    List.Pairwise (fun a b => le a b = true) (insertStable le x l) := by
  induction l with
  | nil => simp [insertStable]
  | cons y ys ih =>
    rcases List.pairwise_cons.1 hl with ⟨hy, hys⟩
    by_cases h : le x y
    · simp only [insertStable, h, ite_true]
      refine List.pairwise_cons.2 ⟨?_, hl⟩
      intro z hz
      rcases List.mem_cons.1 hz with rfl | hz
      · exact h
      · exact htrans x y z h (hy z hz)
    · simp only [insertStable, h, Bool.false_eq_true, ite_false]
      refine List.pairwise_cons.2 ⟨?_, ih hys⟩
      intro z hz
      rcases List.mem_cons.1 ((perm_insertStable le x ys).mem_iff.1 hz) with hzx | hz
      · subst hzx
        rcases htot z y with hxy | hyx
        · exact absurd hxy h
        · exact hyx
      · exact hy z hz

theorem pairwise_sortStable (le : α → α → Bool)
    (htot : ∀ a b, le a b = true ∨ le b a = true)
    (htrans : ∀ a b c, le a b = true → le b c = true → le a c = true) (l : List α) :
    List.Pairwise (fun a b => le a b = true) (sortStable le l) := by
  induction l with
  | nil => simp [sortStable]
  | cons x xs ih => exact pairwise_insertStable le htot htrans ih x

/-- A successful `findSub` marks a genuine occurrence: the needle is a
prefix of the haystack dropped at the returned index. -/
theorem findSub_occurrence {t : List Char} :
    ∀ {h : List Char} {i : Nat}, findSub t h = some i → t <+: h.drop i := by
  intro h
  induction h with
  | nil =>
    intro i hf
    simp only [findSub] at hf
    by_cases ht : t.isEmpty
    · rw [if_pos ht] at hf
      cases hf
      simpa [List.isEmpty_iff] using ht
    · rw [if_neg ht] at hf
      cases hf
  | cons c cs ih =>
    intro i hf
    simp only [findSub] at hf
    by_cases hp : t.isPrefixOf (c :: cs)
    · rw [if_pos hp] at hf
      cases hf
      simpa using List.isPrefixOf_iff_prefix.1 hp
    · rw [if_neg hp] at hf
      rcases hmap : findSub t cs with _ | j
      · rw [hmap] at hf
        cases hf
      · rw [hmap] at hf
        simp at hf
        subst hf
        simpa using ih hmap

/-- `findSub` never returns an index past the haystack length. -/
theorem findSub_index_le {t : List Char} :
    ∀ {h : List Char} {i : Nat}, findSub t h = some i → i ≤ h.length := by
  intro h
  induction h with
  | nil =>
    intro i hf
    simp only [findSub] at hf
    by_cases ht : t.isEmpty
    · rw [if_pos ht] at hf
      cases hf
      simp
    · rw [if_neg ht] at hf
      cases hf
  | cons c cs ih =>
    intro i hf
    simp only [findSub] at hf
    by_cases hp : t.isPrefixOf (c :: cs)
    · rw [if_pos hp] at hf
      cases hf
      simp
    · rw [if_neg hp] at hf
      rcases hmap : findSub t cs with _ | j
      · rw [hmap] at hf
        cases hf
      · rw [hmap] at hf
        simp at hf
        subst hf
        have := ih hmap
        simp only [List.length_cons]
        omega

/-- The occurrence fits inside the haystack. -/
theorem findSub_le_length {t h : List Char} {i : Nat} (hf : findSub t h = some i) :
    i + t.length ≤ h.length := by
  have h1 := (findSub_occurrence hf).length_le
  rw [List.length_drop] at h1
  have h2 := findSub_index_le hf
  omega

/-! ## C6 -/

/-- C6 amended: over any directory, the duplicate scan walks the entire
subtree (every scanned file's path lands in the group of its key); every
emitted group has `count` equal to the length of its path list, at least
2, and its paths are exactly (in scan order) the paths of the files
sharing its `(name, size)` key; the output is sorted by count descending
and truncated to `max_results` groups; for a tree holding exactly two
files with a common key the count-2 group with exactly their paths is in
the grouping and reaches the OUTPUT whenever the number of duplicate
groups is at most `max_results` (the truncation can otherwise cut it —
`c6_counterexample`); and a file whose key is unique appears in no
group. -/
theorem c6_duplicate_grouping (rn : String) (rst : Stat) (cs : List FSEntry)
    (maxR : Nat) (res : List DupGroup)
    (h : find_duplicate_files (.dir rn rst cs) maxR = .ok res) :
    (∀ g ∈ res, g.count = g.paths.length ∧ 2 ≤ g.count ∧
      g.paths = ((scan_directory [rn] cs).filter
        (fun f => f.key = (g.name, g.size))).map ScanFile.path) ∧
    List.Pairwise (fun a b : DupGroup => b.count ≤ a.count) res ∧
    res.length ≤ maxR ∧
    (∀ x ∈ scan_directory [rn] cs,
      x.path ∈ groupFor x.key (buildGroups (scan_directory [rn] cs))) ∧
    (∀ (a b : ScanFile) (k : String × Nat),
      (scan_directory [rn] cs).filter (fun f => f.key = k) = [a, b] →
      ((buildGroups (scan_directory [rn] cs)).filter
        (fun g => 1 < g.2.length)).length ≤ maxR →
      (⟨k.1, k.2, 2, [a.path, b.path]⟩ : DupGroup) ∈ res) ∧
    (∀ f : ScanFile,
      (scan_directory [rn] cs).filter (fun x => x.key = f.key) = [f] →
      ((scan_directory [rn] cs).map ScanFile.path).Nodup →
      ∀ g ∈ res, f.path ∉ g.paths) := by
  simp only [find_duplicate_files, Except.ok.injEq] at h
  subst h
  have hnd := keys_nodup_buildGroups (scan_directory [rn] cs)
  have hchar : ∀ g ∈ (sortStable (fun a b : DupGroup => b.count ≤ a.count)
      (((buildGroups (scan_directory [rn] cs)).filter (fun g => 1 < g.2.length)).map
        (fun g => ({ name := g.1.1, size := g.1.2, count := g.2.length, paths := g.2 } : DupGroup)))).take maxR,
      ∃ kps ∈ buildGroups (scan_directory [rn] cs), 1 < kps.2.length ∧
        g = ⟨kps.1.1, kps.1.2, kps.2.length, kps.2⟩ := by
    intro g hg
    have hg2 := mem_sortStable.1 (List.take_subset maxR _ hg)
    rcases List.mem_map.1 hg2 with ⟨kps, hkps, rfl⟩
    rcases List.mem_filter.1 hkps with ⟨hmem, hlen⟩
    exact ⟨kps, hmem, by simpa using hlen, rfl⟩
  refine ⟨?_, ?_, ?_, ?_, ?_, ?_⟩
  · intro g hg
    rcases hchar g hg with ⟨kps, hmem, hlen, rfl⟩
    refine ⟨rfl, hlen, ?_⟩
    have := groupFor_eq_of_mem hnd hmem
    rw [groupFor_buildGroups] at this
    simpa using this.symm
  · have htot : ∀ a b : DupGroup,
        (fun a b : DupGroup => decide (b.count ≤ a.count)) a b = true ∨
        (fun a b : DupGroup => decide (b.count ≤ a.count)) b a = true := by
      intro a b
      rcases Nat.le_total b.count a.count with h | h <;> simp [h]
    have htrans : ∀ a b c : DupGroup,
        (fun a b : DupGroup => decide (b.count ≤ a.count)) a b = true →
        (fun a b : DupGroup => decide (b.count ≤ a.count)) b c = true →
        (fun a b : DupGroup => decide (b.count ≤ a.count)) a c = true := by
      intro a b c hab hbc
      simp only [decide_eq_true_eq] at hab hbc ⊢
      omega
    have hp := pairwise_sortStable _ htot htrans
      (((buildGroups (scan_directory [rn] cs)).filter (fun g => 1 < g.2.length)).map
        (fun g => ({ name := g.1.1, size := g.1.2, count := g.2.length, paths := g.2 } : DupGroup)))
    have hp2 := hp.sublist (List.take_sublist maxR _)
    exact hp2.imp (fun hab => by simpa using hab)
  · exact List.length_take_le maxR _
  · intro x hx
    rw [groupFor_buildGroups]
    exact List.mem_map.2 ⟨x, List.mem_filter.2 ⟨hx, by simp⟩, rfl⟩
  · intro a b k hf hcnt
    have hak : a.key = k := by
      have ha : a ∈ (scan_directory [rn] cs).filter (fun f => f.key = k) := by
        rw [hf]; simp
      simpa using (List.mem_filter.1 ha).2
    have hk_mem : k ∈ (scan_directory [rn] cs).map ScanFile.key := by
      have ha : a ∈ (scan_directory [rn] cs).filter (fun f => f.key = k) := by
        rw [hf]; simp
      exact List.mem_map.2 ⟨a, (List.mem_filter.1 ha).1, hak⟩
    have hgf : groupFor k (buildGroups (scan_directory [rn] cs)) = [a.path, b.path] := by
      rw [groupFor_buildGroups, hf]
      rfl
    have hmem : (k, [a.path, b.path]) ∈ buildGroups (scan_directory [rn] cs) := by
      have := mem_groupFor_self ((mem_keys_buildGroups _ k).2 hk_mem)
      rwa [hgf] at this
    have hpre : (k, [a.path, b.path]) ∈
        (buildGroups (scan_directory [rn] cs)).filter (fun g => 1 < g.2.length) :=
      List.mem_filter.2 ⟨hmem, by simp⟩
    have hsortmem : (⟨k.1, k.2, 2, [a.path, b.path]⟩ : DupGroup) ∈
        sortStable (fun a b : DupGroup => b.count ≤ a.count)
          (((buildGroups (scan_directory [rn] cs)).filter (fun g => 1 < g.2.length)).map
            (fun g => ({ name := g.1.1, size := g.1.2, count := g.2.length, paths := g.2 } : DupGroup))) :=
      mem_sortStable.2 (List.mem_map.2 ⟨(k, [a.path, b.path]), hpre, rfl⟩)
    have hfull : (sortStable (fun a b : DupGroup => b.count ≤ a.count)
        (((buildGroups (scan_directory [rn] cs)).filter (fun g => 1 < g.2.length)).map
          (fun g => ({ name := g.1.1, size := g.1.2, count := g.2.length, paths := g.2 } : DupGroup)))).take maxR =
        sortStable (fun a b : DupGroup => b.count ≤ a.count)
          (((buildGroups (scan_directory [rn] cs)).filter (fun g => 1 < g.2.length)).map
            (fun g => ({ name := g.1.1, size := g.1.2, count := g.2.length, paths := g.2 } : DupGroup))) := by
      refine List.take_of_length_le ?_
      rw [length_sortStable, List.length_map]
      exact hcnt
    rw [hfull]
    exact hsortmem
  · intro f hf hpaths g hg hfPath
    rcases hchar g hg with ⟨kps, hmem, hlen, rfl⟩
    have hgp := groupFor_eq_of_mem hnd hmem
    rw [groupFor_buildGroups] at hgp
    rw [← hgp] at hfPath
    simp only at hfPath
    rcases List.mem_map.1 hfPath with ⟨x, hxmem, hxpath⟩
    rcases List.mem_filter.1 hxmem with ⟨hxscan, hxkey⟩
    have hfscan : f ∈ scan_directory [rn] cs := by
      have : f ∈ (scan_directory [rn] cs).filter (fun x => x.key = f.key) := by
        rw [hf]; simp
      exact (List.mem_filter.1 this).1
    have hxf : x = f :=
      List.inj_on_of_nodup_map hpaths hxscan hfscan hxpath
    subst hxf
    have hkey : kps.1 = x.key := by
      have hx := hxkey
      simp only [decide_eq_true_eq] at hx
      exact hx.symm
    rw [hkey, hf] at hgp
    have hlen1 : kps.2.length = 1 := by
      rw [← hgp]
      rfl
    omega

/-- C6 fails as stated: over `dupTree` — which holds exactly two files `A`,
`B` with key `("a", 1)` and no other file with that key — a duplicate
search with `max_results = 1` returns only the count-3 `("x", 1)` group;
the `(A, B)` group is truncated away, so the output does not contain a
count-2 group with their paths. -/
theorem c6_counterexample :
    (find_duplicate_files dupTree 1).map (List.map (fun g => (g.name, g.count))) =
      .ok [("x", 3)] := by
  simp +decide [find_duplicate_files, dupTree, scan_directory, scan_loop, buildGroups,
    addToGroups, ScanFile.key, sortStable, insertStable, stZ, Except.map]

/-- Witness for C6's theorem: over the pair tree the `("a", 1)` group with
both paths is in the output. -/
theorem c6_duplicate_grouping_witness :
    (⟨"a", 1, 2, [["r", "e1", "a"], ["r", "e2", "a"]]⟩ : DupGroup) ∈
      [(⟨"a", 1, 2, [["r", "e1", "a"], ["r", "e2", "a"]]⟩ : DupGroup)] := by
  have e : find_duplicate_files (.dir "r" stZ dupPairChildren) 100 =
      .ok [⟨"a", 1, 2, [["r", "e1", "a"], ["r", "e2", "a"]]⟩] := by
    simp +decide [find_duplicate_files, dupPairChildren, scan_directory, scan_loop,
      buildGroups, addToGroups, ScanFile.key, sortStable, insertStable, stZ]
  have hf : (scan_directory ["r"] dupPairChildren).filter
      (fun f => f.key = (("a" : String), (1 : Nat))) =
      [⟨["r", "e1", "a"], "a", 1⟩, ⟨["r", "e2", "a"], "a", 1⟩] := by
    simp +decide [dupPairChildren, scan_directory, scan_loop, ScanFile.key, stZ]
  have hcnt : ((buildGroups (scan_directory ["r"] dupPairChildren)).filter
      (fun g => 1 < g.2.length)).length ≤ 100 := by
    simp +decide [dupPairChildren, scan_directory, scan_loop, buildGroups, addToGroups,
      ScanFile.key, stZ]
  exact (c6_duplicate_grouping "r" stZ dupPairChildren 100 _ e).2.2.2.2.1
    ⟨["r", "e1", "a"], "a", 1⟩ ⟨["r", "e2", "a"], "a", 1⟩ ("a", 1) hf hcnt

/-! ## C7 -/

/-- C7: the tree renderer lists the immediate children sorted with FILES
before directories — the sort key is `(0 if x.is_file() else 1, ...)` —
contradicting both the claim (directories grouped before files) and the
source's own comment "Sort by directories first, then files".  Rendering a
directory holding the file `a` and the subdirectory `b` lists `a` first. -/
theorem c7_files_listed_before_directories :
    format_directory_tree treeFileAndDir = "r/\n├── a\n└── b/" := by
  simp +decide [format_directory_tree, treeFileAndDir, add_directory, render_items,
    sortChildren, sortStable, insertStable, treeKeyLe, treeSortKey, charListLe,
    lowerStr, FSEntry.name, FSEntry.isFile, stZ, String.intercalate]

/-! ## C1 counterexample -/

/-- C1 fails as stated: `search_by_name` with `max_results = 1` over
`treeOverflow` returns 2 results.  After the recursion into `d` returns
with the cap already reached, the loop appends the matching sibling
`b.txt` without any prior cap check. -/
theorem c1_counterexample :
    (search_by_name { pattern := "*.txt", case_sensitive := true, max_results := 1 }
      treeOverflow).map List.length = .ok 2 := by
  simp +decide [search_by_name, search_directory_name, search_name_loop, treeOverflow,
    match_name, get_file_details, FSEntry.name, stZ, Except.map]

/-- C1 amended: invoked with `max_results = N`, `search_by_content` (both
layers), the resource-layer `find_recent_files` and `find_duplicate_files`
return at most N results; the claim fails for `search_by_name` and
`search_by_attributes` (and the tool-layer recent scan), whose loops can
append one further match after an inner recursive call returns with the
cap already reached (`c1_counterexample`). -/
theorem c1_result_caps (q : ContentQuery) :
    (∀ (root : FSEntry) (res : List FileDetails),
      search_by_content q root = .ok res → res.length ≤ q.max_results) ∧
    (∀ (root : FSEntry) (res : List FileDetails),
      op_search_by_content q root = .ok res → res.length ≤ q.max_results) ∧
    (∀ (now : Int) (root : FSEntry) (days : Nat) (pat : String) (maxR : Nat)
      (res : List FileDetails),
      find_recent_files now root days pat maxR = .ok res → res.length ≤ maxR) ∧
    (∀ (root : FSEntry) (maxR : Nat) (res : List DupGroup),
      find_duplicate_files root maxR = .ok res → res.length ≤ maxR) := by
  refine ⟨?_, ?_, ?_, ?_⟩
  · intro root res h
    cases root with
    | dir n st cs =>
      simp only [search_by_content, Except.ok.injEq] at h
      subst h
      exact gather_results_length_le _ _ [] (by simp)
    | file n st bs => simp [search_by_content] at h
    | symlink n st tf => simp [search_by_content] at h
  · intro root res h
    cases root with
    | dir n st cs =>
      simp only [op_search_by_content, Except.ok.injEq] at h
      subst h
      exact op_content_loop_length_le _ _ [] (by simp)
    | file n st bs => simp [op_search_by_content] at h
    | symlink n st tf => simp [op_search_by_content] at h
  · intro now root days pat maxR res h
    cases root with
    | dir n st cs =>
      simp only [find_recent_files, search_by_attributes, bind, Except.bind, pure,
        Except.pure, Except.ok.injEq] at h
      subst h
      exact List.length_take_le maxR _
    | file n st bs => simp [find_recent_files, search_by_attributes, bind, Except.bind] at h
    | symlink n st tf => simp [find_recent_files, search_by_attributes, bind, Except.bind] at h
  · intro root maxR res h
    cases root with
    | dir n st cs =>
      simp only [find_duplicate_files, Except.ok.injEq] at h
      subst h
      exact List.length_take_le maxR _
    | file n st bs => simp [find_duplicate_files] at h
    | symlink n st tf => simp [find_duplicate_files] at h

/-- Witness for C1's amended caps over a concrete two-file tree with
`max_results = 1`. -/
theorem c1_result_caps_witness :
    ([{ get_file_details ["r", "f.txt"] (.file "f.txt" ⟨1, 0, 50⟩ [104]) with
        match_context := some [Char.ofNat 104] }] : List FileDetails).length ≤ 1 ∧
    ([{ get_file_details ["r", "f.txt"] (.file "f.txt" ⟨1, 0, 50⟩ [104]) with
        match_context := some [Char.ofNat 104] }] : List FileDetails).length ≤ 1 ∧
    ([get_file_details ["r", "g.txt"] (.file "g.txt" ⟨1, 0, 60⟩ [104])] :
      List FileDetails).length ≤ 1 ∧
    (([] : List DupGroup)).length ≤ 1 := by
  refine ⟨?_, ?_, ?_, ?_⟩
  · have h := (c1_result_caps { text := [], max_results := 1 }).2.1
      (FSEntry.dir "r" stZ [.file "f.txt" ⟨1, 0, 50⟩ [104], .file "g.txt" ⟨1, 0, 60⟩ [104]])
    have e : op_search_by_content { text := [], max_results := 1 }
        (FSEntry.dir "r" stZ [.file "f.txt" ⟨1, 0, 50⟩ [104], .file "g.txt" ⟨1, 0, 60⟩ [104]]) =
        .ok [{ get_file_details ["r", "f.txt"] (.file "f.txt" ⟨1, 0, 50⟩ [104]) with
               match_context := some [Char.ofNat 104] }] := by
      simp +decide [op_search_by_content, op_walk_files, op_walk_dirs,
        op_content_loop, op_check_file, decodeReplace, lowerL, findSub,
        get_file_details, FSEntry.name, startsWithDot, Except.map]
    exact h _ e
  · have h := (c1_result_caps { text := [], max_results := 1 }).1
      (FSEntry.dir "r" stZ [.file "f.txt" ⟨1, 0, 50⟩ [104], .file "g.txt" ⟨1, 0, 60⟩ [104]])
    have e : search_by_content { text := [], max_results := 1 }
        (FSEntry.dir "r" stZ [.file "f.txt" ⟨1, 0, 50⟩ [104], .file "g.txt" ⟨1, 0, 60⟩ [104]]) =
        .ok [{ get_file_details ["r", "f.txt"] (.file "f.txt" ⟨1, 0, 50⟩ [104]) with
               match_context := some [Char.ofNat 104] }] := by
      simp +decide [search_by_content, collect_files, collect_dirs, addFiles,
        gather_results, search_file, decodeReplace, lowerL, findSub,
        get_file_details, FSEntry.name, startsWithDot, Except.map]
    exact h _ e
  · have h := (c1_result_caps { text := [] }).2.2.1 100
      (FSEntry.dir "r" stZ [.file "f.txt" ⟨1, 0, 50⟩ [104], .file "g.txt" ⟨1, 0, 60⟩ [104]]) 7 "*" 1
    have e : find_recent_files 100 (FSEntry.dir "r" stZ
        [.file "f.txt" ⟨1, 0, 50⟩ [104], .file "g.txt" ⟨1, 0, 60⟩ [104]]) 7 "*" 1 =
        .ok [get_file_details ["r", "g.txt"] (.file "g.txt" ⟨1, 0, 60⟩ [104])] := by
      simp +decide [find_recent_files, search_by_attributes, search_directory_attr,
        search_attr_loop, matches_criteria, normExtensions, get_file_details,
        get_file_type, FSEntry.name, FSEntry.stat, pathName, sortStable,
        insertStable, globMatchStr, stZ, bind, Except.bind, pure, Except.pure,
        startsWithDot]
    exact h _ e
  · have h := (c1_result_caps { text := [] }).2.2.2
      (FSEntry.dir "r" stZ [.file "f.txt" ⟨1, 0, 50⟩ [104], .file "g.txt" ⟨1, 0, 60⟩ [104]]) 1
    have e : find_duplicate_files (FSEntry.dir "r" stZ
        [.file "f.txt" ⟨1, 0, 50⟩ [104], .file "g.txt" ⟨1, 0, 60⟩ [104]]) 1 = .ok [] := by
      simp +decide [find_duplicate_files, scan_directory, scan_loop, buildGroups,
        addToGroups, ScanFile.key, sortStable, insertStable, stZ]
    exact h _ e

/-! ## C2 -/

/-- C2's failing input: the file's bytes are NOT valid text, yet
`search_by_content` reports it as a match — `read_text(errors='replace')`
never raises `UnicodeDecodeError`, so the `except UnicodeDecodeError:
# Skip binary files` branch of the source is unreachable and undecodable
files are searched with U+FFFD substitution instead of being excluded. -/
theorem c2_undecodable_file_reported :
    validTextBytes invalidBytes = false ∧
    (search_by_content { text := "hello".data } treeInvalidText).map
      (List.map FileDetails.name) = .ok ["f.txt"] := by
  constructor
  · decide
  · simp +decide [search_by_content, treeInvalidText, collect_files, collect_dirs,
      addFiles, gather_results, search_file, invalidBytes, decodeReplace, lowerL,
      findSub, get_file_details, FSEntry.name, Except.map]

/-! ## C3 counterexample -/

/-- C3 fails as stated: the resource-layer `find_recent_files`
(`utils/search.py`) applies no file-type filter, so a recently modified
directory is returned by a recent-files search. -/
theorem c3_counterexample :
    (find_recent_files 1000000 treeRecentDir 7).map (List.map FileDetails.ftype) =
      .ok [.directory] := by
  simp +decide [find_recent_files, search_by_attributes, search_directory_attr,
    search_attr_loop, matches_criteria, normExtensions, treeRecentDir,
    get_file_details, get_file_type, FSEntry.name, FSEntry.stat, pathName,
    sortStable, insertStable, globMatchStr, stZ, Except.map, bind, Except.bind,
    pure, Except.pure, startsWithDot]

/-- C3 amended: the TOOL-layer `find_recent_files`
(`operations/search.py`) appends an entry only when `item.is_file()`
succeeds — and pathlib follows symlinks, so this admits both regular
files and symlinks to regular files, the latter reported with type
`symlink` by `get_file_details_dict` (which tests `is_symlink()` first).
Hence every returned entry has type `file` or `symlink` and a DIRECTORY
never appears; symlink-typed entries can appear (the witness exhibits
one).  The resource-layer variant (`utils/search.py`) applies no type
test at all and can also return directories (`c3_counterexample`). -/
theorem c3_op_recent_no_directories (now : Int) (root : FSEntry) (days : Nat)
    (pat : String) (maxR : Nat) (res : List FileDetails)
    (h : op_find_recent_files now root days pat maxR = .ok res) :
    ∀ r ∈ res, r.ftype = .file ∨ r.ftype = .symlink := by
  cases root with
  | dir n st cs =>
    simp only [op_find_recent_files, Except.ok.injEq] at h
    subst h
    intro r hr
    exact scan_recent_files_only _ _ _ _ _ [] (by simp) r (mem_sortStable.1 hr)
  | file n st bs => simp [op_find_recent_files] at h
  | symlink n st tf => simp [op_find_recent_files] at h

/-- Witness for C3's theorem over a tree holding one fresh symlink to a
regular file: the tool-layer recent search returns it, typed `symlink` —
so non-`file` entries do reach its results, while no directory can. -/
theorem c3_op_recent_no_directories_witness :
    (get_file_details ["r", "s"] (.symlink "s" ⟨0, 0, 100⟩ true)).ftype = .file ∨
    (get_file_details ["r", "s"] (.symlink "s" ⟨0, 0, 100⟩ true)).ftype = .symlink := by
  have e : op_find_recent_files 100
      (FSEntry.dir "r" stZ [.symlink "s" ⟨0, 0, 100⟩ true]) 0 "*" 10 =
      .ok [get_file_details ["r", "s"] (.symlink "s" ⟨0, 0, 100⟩ true)] := by
    simp +decide [op_find_recent_files, scan_for_recent_files, scan_recent_loop,
      get_file_details, get_file_type, FSEntry.name, FSEntry.stat, FSEntry.isFile,
      globMatchStr, sortStable, insertStable, stZ, startsWithDot]
  exact c3_op_recent_no_directories 100 _ 0 "*" 10 _ e _ (by simp)

/-! ## C8 -/

/-- C8 fails as stated for the resource-layer `search_by_content`
(`utils/search.py`): its `search_file` attaches the raw slice
`content[start:end]` with NO newline replacement, so the attached context
of a match preceded by a newline still contains `'\n'` (only the
tool-layer `check_file` performs `.replace("\n", " ")`). -/
theorem c8_counterexample :
    (search_by_content { text := "hello".data } nlTree).map
      (List.map FileDetails.match_context) =
      .ok [some "ab\ncd hello xy".data] ∧
    '\n' ∈ "ab\ncd hello xy".data := by
  constructor
  · simp +decide [search_by_content, nlTree, nlBytes, collect_files, collect_dirs,
      addFiles, gather_results, search_file, decodeReplace, lowerL, findSub,
      get_file_details, FSEntry.name, startsWithDot, Except.map]
  · decide

/-- C8 amended: in the tool-layer `check_file`, a reported match carries a
context built from the contiguous slice
`content[max(0, i-40) : min(len, i+len(text)+40)]` around the first
(case-folded) occurrence index `i`: the slice starts at most 40 characters
before the match start, extends at most 40 characters beyond the match
END, contains the occurrence itself (up to the query's case folding), and
every newline of it is then replaced by a space; the resource-layer
variant attaches the same slice without the replacement
(`c8_counterexample`). -/
theorem c8_context_window (q : ContentQuery) (p : List String) (n : String) (st : Stat)
    (bytes : List Nat) (d : FileDetails)
    (h : op_check_file q p (.file n st bytes) = some d) :
    ∃ i start stop,
      start = i - 40 ∧
      stop = min (decodeReplace bytes).length (i + q.text.length + 40) ∧
      findSub (if q.case_sensitive then q.text else lowerL q.text)
        (if q.case_sensitive then decodeReplace bytes else lowerL (decodeReplace bytes)) =
        some i ∧
      d.match_context = some ((((decodeReplace bytes).drop start).take (stop - start)).map
        (fun c => if c = '\n' then ' ' else c)) ∧
      i - start ≤ 40 ∧
      (((decodeReplace bytes).drop start).take (stop - start)).length ≤
        (i - start) + q.text.length + 40 ∧
      (if q.case_sensitive then
        (((((decodeReplace bytes).drop start).take (stop - start)).drop (i - start)).take
          q.text.length)
      else lowerL (((((decodeReplace bytes).drop start).take (stop - start)).drop
          (i - start)).take q.text.length)) =
        (if q.case_sensitive then q.text else lowerL q.text) := by
  simp only [op_check_file] at h
  by_cases hsz : q.max_size < st.size
  · rw [if_pos hsz] at h
    cases h
  · rw [if_neg hsz] at h
    by_cases hpat : ¬ globMatchStr q.file_pattern (FSEntry.name (.file n st bytes))
    · rw [if_pos hpat] at h
      cases h
    · rw [if_neg hpat] at h
      rcases hidx : findSub (if q.case_sensitive then q.text else lowerL q.text)
          (if q.case_sensitive then decodeReplace bytes
           else lowerL (decodeReplace bytes)) with _ | i
      · rw [hidx] at h
        cases h
      · rw [hidx] at h
        simp only [Option.some.injEq] at h
        subst h
        set content := decodeReplace bytes with hcontent
        have hlen_eq : (if q.case_sensitive then content
            else lowerL content).length = content.length := by
          by_cases hcs : q.case_sensitive <;> simp [hcs, lowerL]
        have hfit : i + q.text.length ≤ content.length := by
          have := findSub_le_length hidx
          rw [hlen_eq] at this
          have htl : (if q.case_sensitive then q.text else lowerL q.text).length =
              q.text.length := by
            by_cases hcs : q.case_sensitive <;> simp [hcs, lowerL]
          rw [htl] at this
          exact this
        refine ⟨i, i - 40, min content.length (i + q.text.length + 40), rfl, rfl, rfl,
          rfl, by omega, ?_, ?_⟩
        · simp only [List.length_take, List.length_drop]
          omega
        · have hstop : i + q.text.length ≤ min content.length (i + q.text.length + 40) := by
            omega
          have hslice :
              ((((content.drop (i - 40)).take
                  (min content.length (i + q.text.length + 40) - (i - 40))).drop
                (i - (i - 40))).take q.text.length) =
              (content.drop i).take q.text.length := by
            rw [List.drop_take]
            rw [List.drop_drop]
            have h1 : i - 40 + (i - (i - 40)) = i := by omega
            rw [h1]
            rw [List.take_take]
            have h2 : min q.text.length
                (min content.length (i + q.text.length + 40) - (i - 40) - (i - (i - 40))) =
                q.text.length := by
              omega
            rw [h2]
          rw [hslice]
          have hpref := findSub_occurrence hidx
          by_cases hcs : q.case_sensitive
          · simp only [hcs, ite_true] at hpref ⊢
            have := List.prefix_iff_eq_take.1 hpref
            exact this.symm
          · simp only [hcs, ite_false, Bool.false_eq_true] at hpref ⊢
            have heq := List.prefix_iff_eq_take.1 hpref
            have hmap : lowerL ((content.drop i).take q.text.length) =
                ((lowerL content).drop i).take (lowerL q.text).length := by
              simp only [lowerL, List.map_take, List.map_drop, List.length_map]
            rw [hmap]
            exact heq.symm

/-- Witness for C8's theorem at the newline file. -/
theorem c8_context_window_witness :
    ∃ i start stop,
      start = i - 40 ∧
      stop = min (decodeReplace nlBytes).length (i + nlQuery.text.length + 40) ∧
      findSub (if nlQuery.case_sensitive then nlQuery.text else lowerL nlQuery.text)
        (if nlQuery.case_sensitive then decodeReplace nlBytes
         else lowerL (decodeReplace nlBytes)) = some i ∧
      nlMatchDetails.match_context = some ((((decodeReplace nlBytes).drop start).take
        (stop - start)).map (fun c => if c = '\n' then ' ' else c)) ∧
      i - start ≤ 40 ∧
      (((decodeReplace nlBytes).drop start).take (stop - start)).length ≤
        (i - start) + nlQuery.text.length + 40 ∧
      (if nlQuery.case_sensitive then
        (((((decodeReplace nlBytes).drop start).take (stop - start)).drop (i - start)).take
          nlQuery.text.length)
      else lowerL (((((decodeReplace nlBytes).drop start).take (stop - start)).drop
          (i - start)).take nlQuery.text.length)) =
        (if nlQuery.case_sensitive then nlQuery.text else lowerL nlQuery.text) := by
  have e : op_check_file nlQuery ["r", "f.txt"] (.file "f.txt" ⟨14, 0, 0⟩ nlBytes) =
      some nlMatchDetails := by
    simp +decide [op_check_file, nlQuery, nlBytes, nlMatchDetails, decodeReplace, lowerL,
      findSub, get_file_details, FSEntry.name, startsWithDot]
  exact c8_context_window nlQuery ["r", "f.txt"] "f.txt" ⟨14, 0, 0⟩ nlBytes nlMatchDetails e

/-! ## C9 -/

/-- C9 fails as stated: when the directory-listing part fails with a
non-permission `OSError`, the inner `except PermissionError` does not
catch it; the OUTER `except Exception` does, and the function returns the
`type = "unknown"` dictionary without the basic fields — not "the basic
fields with an error entry". -/
theorem c9_counterexample :
    (get_file_details_pv dirListingOsError).ftype = .unknown ∧
    (get_file_details_pv dirListingOsError).created = none := by
  decide

/-- C9 amended: `get_file_details` is total — it returns a details
dictionary carrying the queried name and path for EVERY input; when
`stat()` fails the dictionary has type `unknown` and an error string; when
only the listing fails and the failure is a `PermissionError`, the basic
fields are returned together with the `"Permission denied"` error entry;
any other listing failure also yields a dictionary (the type-`unknown`
one), so a per-entry metadata failure never aborts a caller's traversal. -/
theorem c9_get_file_details_total (v : PathView) :
    ((get_file_details_pv v).name = v.name ∧ (get_file_details_pv v).path = v.pathStr) ∧
    (v.statResult = none →
      (get_file_details_pv v).ftype = .unknown ∧ (get_file_details_pv v).error.isSome) ∧
    (∀ st, v.statResult = some st → v.ftype = .directory →
      v.listing = .error .permission →
      (get_file_details_pv v).error = some "Permission denied" ∧
      (get_file_details_pv v).ftype = .directory ∧
      (get_file_details_pv v).created = some st.ctime ∧
      (get_file_details_pv v).modified = some st.mtime) := by
  refine ⟨?_, ?_, ?_⟩
  · unfold get_file_details_pv
    rcases hs : v.statResult with _ | st
    · exact ⟨rfl, rfl⟩
    · by_cases hd : v.ftype = .directory
      · rcases hl : v.listing with err | l
        · rcases err with _ | msg <;> simp [hd, hl]
        · simp [hd, hl]
      · simp [hd]
  · intro hs
    unfold get_file_details_pv
    rw [hs]
    exact ⟨rfl, rfl⟩
  · intro st hs hd hl
    unfold get_file_details_pv
    rw [hs]
    simp [hd, hl]

/-- Witness for C9's theorem at concrete inputs: a failing stat and a
permission-denied listing. -/
theorem c9_get_file_details_total_witness :
    ((get_file_details_pv statFailView).ftype = .unknown ∧
      (get_file_details_pv statFailView).error.isSome) ∧
    (get_file_details_pv permDeniedView).error = some "Permission denied" := by
  refine ⟨?_, ?_⟩
  · exact (c9_get_file_details_total statFailView).2.1 rfl
  · exact ((c9_get_file_details_total permDeniedView).2.2 stZ rfl rfl rfl).1

/-! ## C10 -/

/-- C10: the extension allow-list of `search_by_attributes` constrains only
entries of type file — `matches_criteria` tests the suffix only under
`path_type == 'file'` — so with extensions supplied and no `file_type`
filter, every directory or symlink entry meeting the remaining (date)
constraints passes regardless of its name, and such a directory does
appear in the results (second conjunct: a directory named `d.md` is
returned by a search whose extension list is `[".txt"]`). -/
theorem c10_extensions_constrain_only_files :
    (∀ (c : Criteria) (e : FSEntry),
      c.file_type = none →
      get_file_type e ≠ .file →
      (∀ d, c.created_after = some d → d ≤ e.stat.ctime) →
      (∀ d, c.created_before = some d → e.stat.ctime ≤ d) →
      (∀ d, c.modified_after = some d → d ≤ e.stat.mtime) →
      (∀ d, c.modified_before = some d → e.stat.mtime ≤ d) →
      matches_criteria c e = true) ∧
    (search_by_attributes extOnlyCriteria treeDirWithExt).map (List.map FileDetails.ftype) =
      .ok [.directory] := by
  constructor
  · intro c e hft hnf h1 h2 h3 h4
    have hb : (get_file_type e == FileType.file) = false := by
      cases hgt : get_file_type e <;> simp_all
    have e1 : (match c.created_after with
               | some d => decide (e.stat.ctime < d) | none => false) = false := by
      rcases h : c.created_after with _ | d
      · rfl
      · exact decide_eq_false (not_lt.mpr (h1 d h))
    have e2 : (match c.created_before with
               | some d => decide (d < e.stat.ctime) | none => false) = false := by
      rcases h : c.created_before with _ | d
      · rfl
      · exact decide_eq_false (not_lt.mpr (h2 d h))
    have e3 : (match c.modified_after with
               | some d => decide (e.stat.mtime < d) | none => false) = false := by
      rcases h : c.modified_after with _ | d
      · rfl
      · exact decide_eq_false (not_lt.mpr (h3 d h))
    have e4 : (match c.modified_before with
               | some d => decide (d < e.stat.mtime) | none => false) = false := by
      rcases h : c.modified_before with _ | d
      · rfl
      · exact decide_eq_false (not_lt.mpr (h4 d h))
    simp only [matches_criteria, hft, hb, Bool.false_and, e1, e2, e3, e4]
    rcases hne : normExtensions c with _ | es <;> simp [hne]
  · simp +decide [search_by_attributes, search_directory_attr, search_attr_loop,
      matches_criteria, normExtensions, extOnlyCriteria, treeDirWithExt,
      get_file_details, get_file_type, FSEntry.name, FSEntry.stat, stZ, Except.map]

/-- Witness for C10 at a concrete criteria/entry pair: a symlink passes the
matcher although its name has no allowed suffix. -/
theorem c10_extensions_constrain_only_files_witness :
    matches_criteria extOnlyCriteria (.symlink "s.md" stZ false) = true :=
  c10_extensions_constrain_only_files.1 extOnlyCriteria (.symlink "s.md" stZ false)
    rfl (by decide) (fun d h => by simp [extOnlyCriteria] at h)
    (fun d h => by simp [extOnlyCriteria] at h)
    (fun d h => by simp [extOnlyCriteria] at h)
    (fun d h => by simp [extOnlyCriteria] at h)

/-! ## C4 -/

/-- C4: a recent-files search with `days = 0` has cutoff `now`.  Over a tree
whose single file was modified before `now` (e.g. yesterday) it returns no
results; over a tree whose single file's modification time lies strictly
after the cutoff it returns exactly that file. -/
theorem c4_days_zero (now mtA mtB : Int) (maxR : Nat) (hmax : 1 ≤ maxR)
    (hA : mtA < now) (hB : now < mtB) :
    find_recent_files now (.dir "r" stZ [.file "f.txt" ⟨0, 0, mtA⟩ []]) 0 "*" maxR =
      .ok [] ∧
    find_recent_files now (.dir "r" stZ [.file "f.txt" ⟨0, 0, mtB⟩ []]) 0 "*" maxR =
      .ok [get_file_details ["r", "f.txt"] (.file "f.txt" ⟨0, 0, mtB⟩ [])] := by
  have hno : ¬ (maxR * 2 ≤ 0) := by omega
  have hone : ¬ (maxR * 2 ≤ 1) := by omega
  have hmatchA :
      matches_criteria { modified_after := some now, max_results := maxR * 2 }
        (.file "f.txt" ⟨0, 0, mtA⟩ []) = false := by
    simp [matches_criteria, get_file_type, FSEntry.stat, normExtensions]
    omega
  have hmatchB :
      matches_criteria { modified_after := some now, max_results := maxR * 2 }
        (.file "f.txt" ⟨0, 0, mtB⟩ []) = true := by
    simp [matches_criteria, get_file_type, FSEntry.stat, normExtensions]
    omega
  have hTake : ∀ d : FileDetails, List.take maxR [d] = [d] := fun d =>
    List.take_of_length_le (by simp [hmax])
  constructor
  · simp +decide [find_recent_files, search_by_attributes, search_directory_attr,
      search_attr_loop, hmatchA, hno, bind, Except.bind, pure, Except.pure,
      sortStable]
  · simp +decide [find_recent_files, search_by_attributes, search_directory_attr,
      search_attr_loop, hmatchB, hno, hone, bind, Except.bind, pure, Except.pure,
      sortStable, insertStable, pathName, globMatchStr, get_file_details,
      FSEntry.name, hTake]

/-- Witness for C4 at `now = 100`, yesterday-file `mtime = 0`, fresh-file
`mtime = 200`, `max_results = 100`. -/
theorem c4_days_zero_witness :
    find_recent_files 100 (.dir "r" stZ [.file "f.txt" ⟨0, 0, 0⟩ []]) 0 "*" 100 =
      .ok [] ∧
    find_recent_files 100 (.dir "r" stZ [.file "f.txt" ⟨0, 0, 200⟩ []]) 0 "*" 100 =
      .ok [get_file_details ["r", "f.txt"] (.file "f.txt" ⟨0, 0, 200⟩ [])] :=
  c4_days_zero 100 0 200 100 (by decide) (by decide) (by decide)

end LFM
